import Mathlib

/-!
# AutoArgParse: parse tokens and composite-flag bookkeeping

A shallow embedding of `autoArgParse/argParser.h`.

* Objects are records; a member function takes the object and returns the
  updated object (explicit state passing).
* `ArgIter` is an iterator into a `std::vector<std::string>`: the vector is a
  `List String` and an iterator is a position in it (`Nat`); dereferencing a
  position that holds no token is undefined behaviour (`Outcome.undefined`).
* The `int` counters are `Int`; no wrap-around is modelled (a counter moves by
  one per configuration call).
* `std::unordered_map` is an association list with unique keys, kept in
  insertion order; `std::shared_ptr<bool>` is an index into a heap of booleans.
* The header declares `ComplexFlag::parse`, `tryParseFlag`, `tryParseArg` and
  `ArgParser::validateArgs` without bodies; the matching pass is modelled from
  the specification and every such definition says so.
-/

namespace AutoArgParse

/-! ## Tokens -/

/-- The `enum Policy` of the header. -/
inductive Policy where
  | MANDATORY
  | OPTIONAL
  deriving DecidableEq, Repr

/-- The `class ParseToken`: the base of flags and args. -/
structure ParseToken where
  _parsed : Bool
  policy : Policy
  description : String
  deriving DecidableEq, Repr

/-- The constructor `ParseToken(policy, description)`: `_parsed(false)`. -/
def ParseToken.new (policy : Policy) (description : String) : ParseToken :=
  { _parsed := false, policy := policy, description := description }

/-- The accessor `parsed()`. -/
def ParseToken.parsed (t : ParseToken) : Bool := t._parsed

/-- Modelled from the spec: `argHandlers.h` is not among the sources; its
`ErrorMessage` is what a converter throws, "a conversion failure carrying a
human-readable explanation string" (read by `Arg::parse` as `e.message`). -/
structure ErrorMessage where
  message : String
  deriving DecidableEq, Repr

/-- Modelled from the spec: the converter interface of `argHandlers.h`, "a
callable taking one raw string and an output slot for a typed value; must
either populate the slot and return normally, or signal a conversion failure".
The slot is passed by reference, so both outcomes carry the slot as the call
left it. `ErrorMessage` is the only exception type of the interface. -/
inductive ConvertOutcome (T : Type) where
  | returned (slot : T)
  | threw (e : ErrorMessage) (slot : T)

/-- Modelled from the spec: the exception raised by
`throwFailedArgConversionException(name, additionalExpl)`, which the header only
declares ("forward decls of functions that throw exceptions"); it carries the
two strings it is given. -/
inductive ParseException where
  | FailedArgConversion (name : String) (additionalExpl : String)
  deriving DecidableEq, Repr

/-- Modelled from the spec: `throwFailedArgConversionException` builds the
conversion failure from the arg's name and the converter's explanation. -/
def throwFailedArgConversionException (name : String) (additionalExpl : String) :
    ParseException :=
  .FailedArgConversion name additionalExpl

/-- How a call of a `parse` member function `(ArgIter& first, ArgIter& last)`
ends: it returns, or an exception leaves it, each with the object and the
cursor `first` as the call left them; or the call has undefined behaviour. -/
inductive Outcome (σ : Type) where
  | returned (obj : σ) (first : Nat)
  | threw (e : ParseException) (obj : σ) (first : Nat)
  | undefined

/-- The `class ArgBase`. -/
structure ArgBase extends ParseToken where
  name : String
  deriving DecidableEq, Repr

/-- The constructor `ArgBase(name, policy, description)`. -/
def ArgBase.new (name : String) (policy : Policy) (description : String) : ArgBase :=
  { ParseToken.new policy description with name := name }

/-- The `class Arg<T, ConverterFunc>`: a value-arg with its typed slot
`parsedValue` and its converter. -/
structure Arg (T : Type) extends ArgBase where
  parsedValue : T
  convert : String → T → ConvertOutcome T

/-- The constructor `Arg(name, policy, description, convert)`. The member
`T parsedValue;` is default-initialised; `init` is that initial content. -/
def Arg.new {T : Type} (init : T) (name : String) (policy : Policy) (description : String)
    (convert : String → T → ConvertOutcome T) : Arg T :=
  { ArgBase.new name policy description with parsedValue := init, convert := convert }

/-- The member `Arg::parse(ArgIter& first, ArgIter&)`. -/
def Arg.parse {T : Type} (a : Arg T) (argv : List String) (first : Nat) (_last : Nat) :
    Outcome (Arg T) :=
  -- _parsed = false;
  let a0 : Arg T := { a with _parsed := false }
  -- *first
  match argv[first]? with
  | none => .undefined
  | some token =>
    -- try { convert(*first, parsedValue);
    match a0.convert token a0.parsedValue with
    | .returned slot =>
      -- ++first; _parsed = true; }
      .returned { a0 with parsedValue := slot, _parsed := true } (first + 1)
    | .threw e slot =>
      -- catch (ErrorMessage& e)
      if a0.policy = Policy.MANDATORY then
        .threw (throwFailedArgConversionException a0.name e.message)
          { a0 with parsedValue := slot } first
      else
        .returned { a0 with parsedValue := slot } first

/-- The member `T& Arg::get()`: `return parsedValue;`. Stated as a call
outcome so that "the call signals an error" can be said of it. -/
def Arg.get {T : Type} (a : Arg T) : Except ParseException T :=
  .ok a.parsedValue

/-- The `class Flag`: a switch flag, a `ParseToken` with nothing added. -/
structure Flag extends ParseToken where
  deriving DecidableEq, Repr

/-- The inherited constructor `Flag(policy, description)`. -/
def Flag.new (policy : Policy) (description : String) : Flag :=
  { toParseToken := ParseToken.new policy description }

/-- The member `Flag::parse(ArgIter&, ArgIter&)`: `_parsed = true;`. -/
def Flag.parse (f : Flag) (_argv : List String) (first : Nat) (_last : Nat) : Outcome Flag :=
  .returned { f with _parsed := true } first

/-- One `parse` call: the argument vector and the positions `first`, `last`. -/
abbrev ParseCall := List String × Nat × Nat

/-- The object a call leaves behind: after a return or after an exception the
caller still holds the object; after undefined behaviour nothing is known. -/
def Outcome.obj? {σ : Type} : Outcome σ → Option σ
  | .returned obj _ => some obj
  | .threw _ obj _ => some obj
  | .undefined => none

/-- A sequence of `parse` calls on one switch flag, in order. -/
def Flag.parseCalls (f : Flag) : List ParseCall → Option Flag
  | [] => some f
  | call :: calls =>
    match (f.parse call.1 call.2.1 call.2.2).obj? with
    | none => none
    | some f1 => Flag.parseCalls f1 calls

/-- A sequence of `parse` calls on one value-arg, in order; a call that
raises leaves the arg as the call left it and the sequence goes on. -/
def Arg.parseCalls {T : Type} (a : Arg T) : List ParseCall → Option (Arg T)
  | [] => some a
  | call :: calls =>
    match (a.parse call.1 call.2.1 call.2.2).obj? with
    | none => none
    | some a1 => Arg.parseCalls a1 calls

/-- An example converter: accepts exactly the token `"7"`. -/
def sevenOnly : String → Nat → ConvertOutcome Nat :=
  fun token slot =>
    if token = "7" then .returned 7 else .threw { message := "expected 7" } slot

/-- An example value-arg: a fresh optional arg with the converter `sevenOnly`. -/
def exampleArg : Arg Nat := Arg.new 0 "n" Policy.OPTIONAL "a number" sevenOnly

/-! ## Composite flags -/

/-- A `std::shared_ptr<bool>`: the index of its boolean in the heap. -/
abbrev SharedPtr := Nat

/-- The booleans allocated by `std::make_shared<bool>`. -/
abbrev Heap := List Bool

/-- The `typedef ... ExclusiveMap`: flag name to shared group state. -/
abbrev ExclusiveMap := List (String × SharedPtr)

/-- The members of `class ComplexFlag`, over the type `F` of what a `FlagPtr`
owns. All `Arg<T, ConverterFunc>` of one tree are taken over one value type
`V` (a sum type for a tree with args of several types). The deque
`flagInsertionOrder` of map iterators is the list of the keys they point at. -/
structure ComplexFlagOf (F : Type) (V : Type) extends Flag where
  flags : List (String × F)
  flagInsertionOrder : List String
  exclusiveFlags : ExclusiveMap
  args : List (Arg V)
  _numberMandatoryFlags : Int
  _numberOptionalFlags : Int
  _numberExclusiveMandatoryFlags : Int
  _numberExclusiveOptionalFlags : Int
  _numberMandatoryArgs : Int
  _numberOptionalArgs : Int

/-- What a `FlagPtr` (`std::unique_ptr<Flag>`) owns: a plain `Flag` or a
`ComplexFlag`, the two classes `add<FlagType>` is used with. -/
inductive FlagPtr (V : Type) where
  | flag (f : Flag)
  | complexFlag (c : ComplexFlagOf (FlagPtr V) V)

/-- The `class ComplexFlag`. -/
abbrev ComplexFlag (V : Type) := ComplexFlagOf (FlagPtr V) V

/-- The `typedef ... FlagMap`. -/
abbrev FlagMap (V : Type) := List (String × FlagPtr V)

/-- The `typedef ... ArgVector`. -/
abbrev ArgVector (V : Type) := List (Arg V)

/-- The base-class view `ptr->...` of what a `FlagPtr` owns. -/
def FlagPtr.toParseToken {V : Type} : FlagPtr V → ParseToken
  | .flag f => f.toParseToken
  | .complexFlag c => c.toParseToken

/-- The member `ptr->policy`. -/
def FlagPtr.policy {V : Type} (p : FlagPtr V) : Policy := p.toParseToken.policy

/-- The member `ptr->description`. -/
def FlagPtr.description {V : Type} (p : FlagPtr V) : String := p.toParseToken.description

/-- The call `ptr->parsed()`. -/
def FlagPtr.parsed {V : Type} (p : FlagPtr V) : Bool := p.toParseToken.parsed

/-- The call `std::unordered_map::insert(std::make_pair(k, v))`: when the key is
present the map is unchanged and the iterator points at the present entry;
otherwise the pair is added. Gives the map and the value the returned iterator
points at. -/
def mapInsert {β : Type} (m : List (String × β)) (k : String) (v : β) :
    List (String × β) × β :=
  match m.lookup k with
  | some present => (m, present)
  | none => (m ++ [(k, v)], v)

/-- The constructor `ComplexFlag(policy, description)`. -/
def ComplexFlag.new {V : Type} (policy : Policy) (description : String) : ComplexFlag V :=
  { toFlag := Flag.new policy description
    flags := []
    flagInsertionOrder := []
    exclusiveFlags := []
    args := []
    _numberMandatoryFlags := 0
    _numberOptionalFlags := 0
    _numberExclusiveMandatoryFlags := 0
    _numberExclusiveOptionalFlags := 1
    _numberMandatoryArgs := 0
    _numberOptionalArgs := 0 }

/-- The accessor `getArgs()`. -/
def ComplexFlag.getArgs {V : Type} (c : ComplexFlag V) : ArgVector V := c.args

/-- The accessor `getFlags()`. -/
def ComplexFlag.getFlags {V : Type} (c : ComplexFlag V) : FlagMap V := c.flags

/-- The accessor `getExclusiveFlags()`. -/
def ComplexFlag.getExclusiveFlags {V : Type} (c : ComplexFlag V) : ExclusiveMap :=
  c.exclusiveFlags

/-- The accessor `getFlagInsertionOrder()`. -/
def ComplexFlag.getFlagInsertionOrder {V : Type} (c : ComplexFlag V) : List String :=
  c.flagInsertionOrder

/-- The member `numberMandatoryArgs()`. -/
def ComplexFlag.numberMandatoryArgs {V : Type} (c : ComplexFlag V) : Int :=
  c._numberMandatoryArgs

/-- The member `numberOptionalArgs()`. -/
def ComplexFlag.numberOptionalArgs {V : Type} (c : ComplexFlag V) : Int :=
  c._numberOptionalArgs

/-- The member `numberMandatoryFlags()`. -/
def ComplexFlag.numberMandatoryFlags {V : Type} (c : ComplexFlag V) : Int :=
  c._numberMandatoryFlags - c._numberExclusiveMandatoryFlags

/-- The member `numberOptionalFlags()`. -/
def ComplexFlag.numberOptionalFlags {V : Type} (c : ComplexFlag V) : Int :=
  c._numberOptionalFlags - c._numberExclusiveOptionalFlags

/-- The classes `add<FlagType>` is instantiated with. -/
inductive FlagType where
  | Flag
  | ComplexFlag
  deriving DecidableEq, Repr

/-- The expression `std::make_unique<FlagType>(args...)` of `add`, with
`args...` the policy and the description both constructors take. -/
def FlagPtr.make_unique {V : Type} (T : FlagType) (policy : Policy) (description : String) :
    FlagPtr V :=
  match T with
  | .Flag => .flag (Flag.new policy description)
  | .ComplexFlag => .complexFlag (ComplexFlag.new policy description)

/-- The member template `add<FlagType>(flag, args...)` for flags. Gives the
composite and the flag the returned reference denotes. -/
def ComplexFlag.addFlag {V : Type} (c : ComplexFlag V) (T : FlagType) (flag : String)
    (policy : Policy) (description : String) : ComplexFlag V × FlagPtr V :=
  -- auto added = flags.insert(std::make_pair(flag, std::make_unique<FlagType>(args...)));
  let added := mapInsert c.flags flag (FlagPtr.make_unique T policy description)
  let c1 : ComplexFlag V := { c with flags := added.1 }
  -- if (added.first->second->policy == Policy::MANDATORY)
  let c2 : ComplexFlag V :=
    if added.2.policy = Policy.MANDATORY then
      { c1 with _numberMandatoryFlags := c1._numberMandatoryFlags + 1 }
    else
      { c1 with _numberOptionalFlags := c1._numberOptionalFlags + 1 }
  -- flagInsertionOrder.push_back(std::move(added.first));
  let c3 : ComplexFlag V := { c2 with flagInsertionOrder := c2.flagInsertionOrder ++ [flag] }
  (c3, added.2)

/-- The member template `add<ArgType>(name, policy, description, convert)` for
value-args (the three-argument overload calls it with the default converter).
Gives the composite and the arg the returned reference denotes. -/
def ComplexFlag.addArg {V : Type} (c : ComplexFlag V) (init : V) (name : String)
    (policy : Policy) (description : String) (convert : String → V → ConvertOutcome V) :
    ComplexFlag V × Arg V :=
  -- this->args.emplace_back(std::make_unique<Arg<...>>(name, policy, description, convert));
  let back := Arg.new init name policy description convert
  let c1 : ComplexFlag V := { c with args := c.args ++ [back] }
  -- if (this->args.back()->policy == Policy::MANDATORY)
  let c2 : ComplexFlag V :=
    if back.policy = Policy.MANDATORY then
      { c1 with _numberMandatoryArgs := c1._numberMandatoryArgs + 1 }
    else
      { c1 with _numberOptionalArgs := c1._numberOptionalArgs + 1 }
  (c2, back)

/-- The member `addExclusive(flag, sharedState)`. `flags[flag]` on a name that
is no key default-inserts a null `FlagPtr`, and `->policy` dereferences it:
undefined behaviour, `none`. -/
def ComplexFlag.addExclusive {V : Type} (c : ComplexFlag V) (flag : String)
    (sharedState : SharedPtr) : Option (ComplexFlag V) :=
  -- exclusiveFlags.insert(std::make_pair(flag, sharedState));
  let c1 : ComplexFlag V :=
    { c with exclusiveFlags := (mapInsert c.exclusiveFlags flag sharedState).1 }
  -- if (flags[flag]->policy == Policy::MANDATORY)
  match c1.flags.lookup flag with
  | none => none
  | some p =>
    if p.policy = Policy.MANDATORY then
      some { c1 with _numberExclusiveMandatoryFlags := c1._numberExclusiveMandatoryFlags + 1 }
    else
      some { c1 with _numberExclusiveOptionalFlags := c1._numberExclusiveOptionalFlags + 1 }

/-- The pack expansion `int unpack[]{0, (addExclusive(strings, sharedState), 0)...}`
of `makeExclusive`: `addExclusive` on every name, left to right. -/
def ComplexFlag.unpack {V : Type} (sharedState : SharedPtr) :
    List String → ComplexFlag V → Option (ComplexFlag V)
  | [], c => some c
  | s :: strings, c =>
    match ComplexFlag.addExclusive c s sharedState with
    | none => none
    | some c1 => ComplexFlag.unpack sharedState strings c1

/-- The member template `makeExclusive(strings...)`. Gives the returned shared
state, the composite and the heap; `none` is undefined behaviour. -/
def ComplexFlag.makeExclusive {V : Type} (c : ComplexFlag V) (strings : List String)
    (heap : Heap) : Option (SharedPtr × ComplexFlag V × Heap) :=
  let previousNMandatoryExclusives := c._numberExclusiveMandatoryFlags
  let previousNOptionalExclusives := c._numberExclusiveOptionalFlags
  -- std::shared_ptr<bool> sharedState = std::make_shared<bool>(false);
  let sharedState : SharedPtr := heap.length
  let heap1 : Heap := heap ++ [false]
  match ComplexFlag.unpack sharedState strings c with
  | none => none
  | some c1 =>
    let c2 : ComplexFlag V :=
      if c1._numberExclusiveMandatoryFlags ≠ previousNMandatoryExclusives then
        { c1 with _numberExclusiveMandatoryFlags := c1._numberExclusiveMandatoryFlags - 1 }
      else c1
    let c3 : ComplexFlag V :=
      if c2._numberExclusiveOptionalFlags ≠ previousNOptionalExclusives then
        { c2 with _numberExclusiveOptionalFlags := c2._numberExclusiveOptionalFlags - 1 }
      else c2
    some (sharedState, c3, heap1)

/-! ## Configuration call sequences -/

/-- One configuration call on a composite. -/
inductive Call (V : Type) where
  | addFlag (T : FlagType) (flag : String) (policy : Policy) (description : String)
  | addArg (init : V) (name : String) (policy : Policy) (description : String)
      (convert : String → V → ConvertOutcome V)
  | makeExclusive (strings : List String)

/-- Runs one configuration call on a composite and the heap. -/
def Call.run {V : Type} (call : Call V) (c : ComplexFlag V) (heap : Heap) :
    Option (ComplexFlag V × Heap) :=
  match call with
  | .addFlag T flag policy description =>
    some ((ComplexFlag.addFlag c T flag policy description).1, heap)
  | .addArg init name policy description convert =>
    some ((ComplexFlag.addArg c init name policy description convert).1, heap)
  | .makeExclusive strings =>
    match ComplexFlag.makeExclusive c strings heap with
    | none => none
    | some r => some (r.2.1, r.2.2)

/-- Runs configuration calls in order. -/
def runCalls {V : Type} : List (Call V) → ComplexFlag V → Heap → Option (ComplexFlag V × Heap)
  | [], c, heap => some (c, heap)
  | call :: calls, c, heap =>
    match call.run c heap with
    | none => none
    | some r => runCalls calls r.1 r.2

/-- The value-arg a call declares: `add<ArgType>` constructs it from its
arguments, the other calls declare none. -/
def Call.declaredArg {V : Type} : Call V → Option (Arg V)
  | .addArg init name policy description convert =>
    some (Arg.new init name policy description convert)
  | .addFlag _ _ _ _ => none
  | .makeExclusive _ => none

/-- The value-args a call sequence declares, in call order. -/
def declaredArgs {V : Type} (calls : List (Call V)) : List (Arg V) :=
  calls.filterMap Call.declaredArg

/-- The number of value-args of a composite with the given policy. -/
def ComplexFlag.countArgs {V : Type} (c : ComplexFlag V) (policy : Policy) : Nat :=
  (c.getArgs.filter (fun a => decide (a.policy = policy))).length

/-- Everything of a composite but its exclusivity map and the two exclusivity
counters is the same in `c1` as in `c`. -/
def ComplexFlag.sameButExclusive {V : Type} (c c1 : ComplexFlag V) : Prop :=
  c1.toFlag = c.toFlag ∧ c1.flags = c.flags ∧ c1.flagInsertionOrder = c.flagInsertionOrder ∧
  c1.args = c.args ∧ c1._numberMandatoryFlags = c._numberMandatoryFlags ∧
  c1._numberOptionalFlags = c._numberOptionalFlags ∧
  c1._numberMandatoryArgs = c._numberMandatoryArgs ∧
  c1._numberOptionalArgs = c._numberOptionalArgs

/-- An example call sequence: flags, args and an exclusivity group interleaved. -/
def exampleCalls : List (Call Nat) :=
  [Call.addArg 0 "number_watts" Policy.MANDATORY "watts" sevenOnly,
   Call.addFlag FlagType.Flag "slow" Policy.MANDATORY "",
   Call.addFlag FlagType.Flag "fast" Policy.MANDATORY "",
   Call.addArg 0 "level" Policy.OPTIONAL "level" sevenOnly,
   Call.makeExclusive ["slow", "fast"],
   Call.addFlag FlagType.ComplexFlag "-v" Policy.OPTIONAL "verbose"]

/-- The composite the example call sequence configures from a fresh one. -/
def exampleComposite : ComplexFlag Nat :=
  ((runCalls exampleCalls (ComplexFlag.new Policy.MANDATORY "") []).getD
    (ComplexFlag.new Policy.MANDATORY "", [])).1

/-- The arg counters agree with the arg list. -/
def ComplexFlag.argCountersExact {V : Type} (c : ComplexFlag V) : Prop :=
  c.numberMandatoryArgs = c.countArgs Policy.MANDATORY ∧
  c.numberOptionalArgs = c.countArgs Policy.OPTIONAL

/-- Whether a flag name has an entry in `getExclusiveFlags()`, that is, is a
member of an exclusivity group. -/
def ComplexFlag.isExclusive {V : Type} (c : ComplexFlag V) (flag : String) : Bool :=
  (c.getExclusiveFlags.lookup flag).isSome

/-- The number of child flags with the given policy that are members of no
exclusivity group. -/
def ComplexFlag.countUngroupedFlags {V : Type} (c : ComplexFlag V) (policy : Policy) : Nat :=
  (c.getFlags.filter (fun e => decide (e.2.policy = policy) && !c.isExclusive e.1)).length

/-- Whether a list of names holds a child flag with the given policy. -/
def ComplexFlag.hasMember {V : Type} (c : ComplexFlag V) (policy : Policy)
    (strings : List String) : Bool :=
  strings.any (fun s =>
    match c.getFlags.lookup s with
    | some p => decide (p.policy = policy)
    | none => false)

/-- The number of groups (name lists given to `makeExclusive`) that hold at
least one child flag with the given policy. -/
def ComplexFlag.countGroupsWith {V : Type} (c : ComplexFlag V) (policy : Policy)
    (groups : List (List String)) : Nat :=
  (groups.filter (fun g => c.hasMember policy g)).length

/-- The arguments of one `add<FlagType>` call: class, name, policy, description. -/
abbrev FlagDecl := FlagType × String × Policy × String

/-- The `add<FlagType>` call of a declaration. -/
def FlagDecl.call {V : Type} (d : FlagDecl) : Call V :=
  Call.addFlag d.1 d.2.1 d.2.2.1 d.2.2.2

/-- The call sequence "`add<FlagType>` for every declaration, then
`makeExclusive` for every group". -/
def exclusiveConfig {V : Type} (decls : List FlagDecl) (groups : List (List String)) :
    List (Call V) :=
  decls.map FlagDecl.call ++ groups.map Call.makeExclusive

/-- The raw counter `_numberMandatoryFlags` or `_numberOptionalFlags`. -/
def ComplexFlag.rawFlags {V : Type} (c : ComplexFlag V) : Policy → Int
  | .MANDATORY => c._numberMandatoryFlags
  | .OPTIONAL => c._numberOptionalFlags

/-- The raw counter `_numberExclusiveMandatoryFlags` or
`_numberExclusiveOptionalFlags`. -/
def ComplexFlag.rawExclusive {V : Type} (c : ComplexFlag V) : Policy → Int
  | .MANDATORY => c._numberExclusiveMandatoryFlags
  | .OPTIONAL => c._numberExclusiveOptionalFlags

/-- The example of `exampleUsage.cpp`: the children `slow`, `medium`, `fast`
of `--speed`, all MANDATORY, made exclusive. -/
def speedDecls : List FlagDecl :=
  [(FlagType.Flag, "slow", Policy.MANDATORY, ""), (FlagType.Flag, "medium", Policy.MANDATORY, ""),
   (FlagType.Flag, "fast", Policy.MANDATORY, "")]

/-- The flag name an `add<FlagType>` call registers; the other calls register none. -/
def Call.flagName {V : Type} : Call V → Option String
  | .addFlag _ flag _ _ => some flag
  | .addArg _ _ _ _ _ => none
  | .makeExclusive _ => none

/-- The flag names the `add<FlagType>` calls of a sequence register, in call order. -/
def declaredFlagNames {V : Type} (calls : List (Call V)) : List String :=
  calls.filterMap Call.flagName

/-- The child flag map has unique keys, and its keys are the names that
occur in the insertion order. -/
def ComplexFlag.keysInOrder {V : Type} (c : ComplexFlag V) : Prop :=
  (c.getFlags.map Prod.fst).Nodup ∧
  ∀ n : String, n ∈ c.getFlags.map Prod.fst ↔ n ∈ c.getFlagInsertionOrder

/-- An example with mixed policies: five declarations, two of them composites. -/
def mixedDecls : List FlagDecl :=
  [(FlagType.Flag, "a", Policy.MANDATORY, "first"), (FlagType.Flag, "b", Policy.OPTIONAL, "second"),
   (FlagType.ComplexFlag, "c", Policy.OPTIONAL, "third"),
   (FlagType.ComplexFlag, "d", Policy.MANDATORY, "fourth"),
   (FlagType.Flag, "e", Policy.OPTIONAL, "fifth")]

/-- The number of listed names, counted with repetition, that are child flags
with the given policy. -/
def ComplexFlag.countListed {V : Type} (c : ComplexFlag V) (policy : Policy)
    (strings : List String) : Nat :=
  (strings.filter (fun s =>
    match c.getFlags.lookup s with
    | some p => decide (p.policy = policy)
    | none => false)).length

/-- A composite with the MANDATORY switch flag `a` added once. -/
def onceAdded : ComplexFlag Nat :=
  (ComplexFlag.addFlag (ComplexFlag.new Policy.MANDATORY "") FlagType.Flag "a"
    Policy.MANDATORY "first").1

/-- Reading the shared state through a member: `*exclusiveFlags.at(n)`. -/
def ComplexFlag.readState {V : Type} (c : ComplexFlag V) (heap : Heap) (n : String) :
    Option Bool :=
  match c.getExclusiveFlags.lookup n with
  | some st => heap[st]?
  | none => none

/-- Writing the shared state through a member: `*exclusiveFlags.at(n) = b`. -/
def ComplexFlag.writeState {V : Type} (c : ComplexFlag V) (heap : Heap) (n : String)
    (b : Bool) : Heap :=
  match c.getExclusiveFlags.lookup n with
  | some st => heap.set st b
  | none => heap

/-- The composite that the declarations `mixedDecls` configure from a fresh one. -/
def mixedComposite : ComplexFlag Nat :=
  ((runCalls (mixedDecls.map FlagDecl.call) (ComplexFlag.new Policy.MANDATORY "") []).getD
    (ComplexFlag.new Policy.MANDATORY "", [])).1

/-- The composite `mixedComposite` after `makeExclusive("a", "b")`; the group's
state is the first boolean of the heap. -/
def groupedComposite : ComplexFlag Nat :=
  ((runCalls (exclusiveConfig mixedDecls [["a", "b"]]) (ComplexFlag.new Policy.MANDATORY "")
    []).getD (ComplexFlag.new Policy.MANDATORY "", [])).1

/-! ## The grammar root -/

/-- The `class ArgParser`: a `ComplexFlag` with the count of parsed arguments. -/
structure ArgParser (V : Type) extends ComplexFlagOf (FlagPtr V) V where
  numberArgsSuccessfullyParsed : Int

/-- The constructor `ArgParser()`:
`ComplexFlag(Policy::MANDATORY, ""), numberArgsSuccessfullyParsed(0)`. -/
def ArgParser.new {V : Type} : ArgParser V :=
  { toComplexFlagOf := ComplexFlag.new Policy.MANDATORY ""
    numberArgsSuccessfullyParsed := 0 }

/-- The member `getNumberArgsSuccessfullyParsed()`. -/
def ArgParser.getNumberArgsSuccessfullyParsed {V : Type} (a : ArgParser V) : Int :=
  a.numberArgsSuccessfullyParsed

/-- The base-class view of the root as a `ComplexFlag`. -/
def ArgParser.toComplexFlag {V : Type} (a : ArgParser V) : ComplexFlag V := a.toComplexFlagOf

/-! ## The matching pass

The bodies of `ComplexFlag::parse`, `ComplexFlag::tryParseFlag`,
`ComplexFlag::tryParseArg` and `ArgParser::validateArgs` are not among the
sources (the header only declares them); they are modelled from the
specification's description of the matching and validation phases. -/

/-- Modelled from the spec: the failure taxonomy ("ConversionFailure",
"ExclusivityViolation", "MissingMandatoryFlag / MissingMandatoryArg /
MissingMandatoryGroup", "UnrecognizedToken") of the exception classes that are
not among the sources, each with the names the spec says it carries. -/
inductive MatchFailure where
  | ConversionFailure (e : ParseException)
  | ExclusivityViolation (member : String) (other : String) (group : SharedPtr)
  | MissingMandatoryFlag (name : String)
  | MissingMandatoryArg (name : String)
  | MissingMandatoryGroup (group : SharedPtr) (members : List String)
  | UnrecognizedToken (token : String)
  deriving DecidableEq, Repr

/-- How a call of the matching pass ends: success with the object, the cursor
and the heap as the call left them; a fatal failure; undefined behaviour; or
the recursion bound of the model is used up. -/
inductive MatchOutcome (σ : Type) where
  | success (obj : σ) (first : Nat) (heap : Heap)
  | failure (e : MatchFailure)
  | undefined
  | outOfFuel
  deriving DecidableEq, Repr

/-- What a call through a reference to a stored child does to the map: the
flag stored under the key is replaced, keys and order stay. -/
def mapReplace {β : Type} (m : List (String × β)) (k : String) (v : β) : List (String × β) :=
  m.map (fun e => if e.1 == k then (e.1, v) else e)

/-- The names bound to the shared state `st`: the members of that group. -/
def ComplexFlag.groupMembers {V : Type} (c : ComplexFlag V) (st : SharedPtr) : List String :=
  (c.getExclusiveFlags.filter (fun e => e.2 == st)).map Prod.fst

/-- Whether the child flag stored under a name has `parsed()` true. -/
def ComplexFlag.memberParsed {V : Type} (c : ComplexFlag V) (n : String) : Bool :=
  match c.getFlags.lookup n with
  | some p => p.parsed
  | none => false

/-- The virtual call `flag->parse(first, last)` on a stored child: `Flag::parse`
for a switch flag, the composite's `parse` (given as `parseComplex`) for a
composite. -/
def FlagPtr.parseWith {V : Type}
    (parseComplex : ComplexFlag V → List String → Nat → Nat → Heap → MatchOutcome (ComplexFlag V))
    (p : FlagPtr V) (argv : List String) (first last : Nat) (heap : Heap) :
    MatchOutcome (FlagPtr V) :=
  match p with
  | .flag f =>
    match f.parse argv first last with
    | .returned f1 first1 => .success (.flag f1) first1 heap
    | .threw e _ _ => .failure (.ConversionFailure e)
    | .undefined => .undefined
  | .complexFlag cc =>
    match parseComplex cc argv first last heap with
    | .success c1 first1 heap1 => .success (.complexFlag c1) first1 heap1
    | .failure e => .failure e
    | .undefined => .undefined
    | .outOfFuel => .outOfFuel

/-- Modelled from the spec: the test of step 1a, "if that flag belongs to an
exclusivity group whose shared already-matched state is set by a different
member": the group's state is set and another member of the group is parsed.
Gives that member and the group. -/
def ComplexFlag.conflictingMember {V : Type} (c : ComplexFlag V) (heap : Heap)
    (token : String) : Option (String × SharedPtr) :=
  match c.getExclusiveFlags.lookup token with
  | none => none
  | some st =>
    if heap[st]? = some true then
      match (c.groupMembers st).find? (fun n => n != token && c.memberParsed n) with
      | some other => some (other, st)
      | none => none
    else none

/-- Modelled from the spec: `ComplexFlag::tryParseFlag`, whose body is not
among the sources; step 1a of the matching phase: "Look up the current token
as a child flag name. If found: if that flag belongs to an exclusivity group
whose shared already-matched state is set by a different member, fail with an
exclusivity-violation error naming both members and the group. Otherwise
advance past the name token and recursively invoke the matched child's parse;
on the child's success, mark the exclusivity group's shared state (if any) and
continue the loop." `none` is the return value false: the token is no child
flag name. -/
def ComplexFlag.tryParseFlag {V : Type}
    (parseComplex : ComplexFlag V → List String → Nat → Nat → Heap → MatchOutcome (ComplexFlag V))
    (c : ComplexFlag V) (argv : List String) (first last : Nat) (heap : Heap) :
    Option (MatchOutcome (ComplexFlag V)) :=
  match argv[first]? with
  | none => some .undefined
  | some token =>
    match c.getFlags.lookup token with
    | none => none
    | some child =>
      match c.conflictingMember heap token with
      | some (other, st) => some (.failure (.ExclusivityViolation token other st))
      | none =>
        match child.parseWith parseComplex argv (first + 1) last heap with
        | .success child1 first1 heap1 =>
          let c1 : ComplexFlag V := { c with flags := mapReplace c.flags token child1 }
          let heap2 : Heap :=
            match c.getExclusiveFlags.lookup token with
            | some st => heap1.set st true
            | none => heap1
          some (.success c1 first1 heap2)
        | .failure e => some (.failure e)
        | .undefined => some .undefined
        | .outOfFuel => some .outOfFuel

/-- Modelled from the spec: `ComplexFlag::tryParseArg`, whose body is not among
the sources; step 1b of the matching phase: "if there remain unmatched
value-args in this composite's declared order, offer the current
(not-yet-advanced) token to the next pending value-arg's parse", with `nextArg`
the position of the next pending arg. `none` is the return value false: no
value-arg is pending. A failure of a MANDATORY arg is fatal; an OPTIONAL arg
that rejects the token returns with the cursor unchanged. -/
def ComplexFlag.tryParseArg {V : Type} (c : ComplexFlag V) (nextArg : Nat)
    (argv : List String) (first last : Nat) (heap : Heap) :
    Option (MatchOutcome (ComplexFlag V)) :=
  match c.getArgs[nextArg]? with
  | none => none
  | some arg =>
    match arg.parse argv first last with
    | .returned arg1 first1 =>
      some (.success { c with args := c.args.set nextArg arg1 } first1 heap)
    | .threw e _ _ => some (.failure (.ConversionFailure e))
    | .undefined => some .undefined

/-- Modelled from the spec: the loop of the matching phase of
`ComplexFlag::parse`, "While cursor != end": step 1a, else step 1b ("If it
succeeds, move to the next declared arg. If it fails as OPTIONAL-recoverable
(cursor unchanged), treat that arg as permanently skipped ... and retry step
(a)/(b) with the same token"), else step 1c ("stop the pass and return the
unconsumed remainder to the parent"). `steps` bounds the number of rounds. -/
def ComplexFlag.matchLoop {V : Type}
    (parseComplex : ComplexFlag V → List String → Nat → Nat → Heap → MatchOutcome (ComplexFlag V))
    (argv : List String) (last : Nat) :
    Nat → ComplexFlag V → Nat → Nat → Heap → MatchOutcome (ComplexFlag V)
  | 0, _, _, _, _ => .outOfFuel
  | steps + 1, c, nextArg, first, heap =>
    if first = last then .success c first heap
    else
      match c.tryParseFlag parseComplex argv first last heap with
      | some (.success c1 first1 heap1) =>
        ComplexFlag.matchLoop parseComplex argv last steps c1 nextArg first1 heap1
      | some (.failure e) => .failure e
      | some .undefined => .undefined
      | some .outOfFuel => .outOfFuel
      | none =>
        match c.tryParseArg nextArg argv first last heap with
        | some (.success c1 first1 heap1) =>
          ComplexFlag.matchLoop parseComplex argv last steps c1 (nextArg + 1) first1 heap1
        | some (.failure e) => .failure e
        | some .undefined => .undefined
        | some .outOfFuel => .outOfFuel
        | none => .success c first heap

/-- Modelled from the spec: the validation phase, run after the matching of a
composite: "for every mandatory child flag not parsed and not covered by a
satisfied exclusivity group, fail with a missing-token error naming it. For
every mandatory exclusivity group with zero matched members, fail naming the
group and its member names. For every mandatory value-arg not parsed, fail
naming it"; the first failure met is the result. A flag that is a member of a
group is answered for by its group (the spec's example: `--speed` alone is a
missing group), and a group is mandatory when it holds a MANDATORY flag. -/
def ComplexFlag.validate {V : Type} (c : ComplexFlag V) : Option MatchFailure :=
  match c.getFlags.find? (fun e =>
      decide (e.2.policy = Policy.MANDATORY) && !e.2.parsed && !c.isExclusive e.1) with
  | some e => some (.MissingMandatoryFlag e.1)
  | none =>
    match c.getExclusiveFlags.find? (fun e =>
        c.hasMember Policy.MANDATORY (c.groupMembers e.2) &&
          !(c.groupMembers e.2).any (fun n => c.memberParsed n)) with
    | some e => some (.MissingMandatoryGroup e.2 (c.groupMembers e.2))
    | none =>
      match c.getArgs.find? (fun a => decide (a.policy = Policy.MANDATORY) && !a.parsed) with
      | some a => some (.MissingMandatoryArg a.name)
      | none => none

/-- Modelled from the spec: `ComplexFlag::parse`, whose body is not among the
sources: the matching phase, then the validation phase at this composite, then
the composite is bound (`parsed()` true). `fuel` bounds the nesting depth of
composites; the loop gets one round per remaining token and per value-arg. -/
def ComplexFlag.parse {V : Type} :
    Nat → ComplexFlag V → List String → Nat → Nat → Heap → MatchOutcome (ComplexFlag V)
  | 0, _, _, _, _, _ => .outOfFuel
  | fuel + 1, c, argv, first, last, heap =>
    match ComplexFlag.matchLoop (ComplexFlag.parse fuel) argv last
        ((last - first) + c.getArgs.length + 1) c 0 first heap with
    | .success c1 first1 heap1 =>
      match c1.validate with
      | some e => .failure e
      | none => .success { c1 with _parsed := true } first1 heap1
    | .failure e => .failure e
    | .undefined => .undefined
    | .outOfFuel => .outOfFuel

/-- Modelled from the spec: `ArgParser::validateArgs` in the mode that returns
the failure to the caller, whose body is not among the sources: the root's
`run(rawTokens)` "treats the raw input (already stripped of program name) as
the cursor range, invokes CompositeFlag matching on itself, then validation. On
success, returns/records how many leading tokens were consumed"; input that
remains after the root's pass is an unrecognized token. -/
def ArgParser.validateArgs {V : Type} (fuel : Nat) (a : ArgParser V) (argv : List String)
    (heap : Heap) : MatchOutcome (ArgParser V) :=
  match ComplexFlag.parse fuel a.toComplexFlag argv 0 argv.length heap with
  | .success c1 first1 heap1 =>
    match argv[first1]? with
    | some token => .failure (.UnrecognizedToken token)
    | none => .success { toComplexFlagOf := c1, numberArgsSuccessfullyParsed := first1 } first1 heap1
  | .failure e => .failure e
  | .undefined => .undefined
  | .outOfFuel => .outOfFuel

/-- The `--speed` composite of `exampleUsage.cpp`: the children `slow`,
`medium`, `fast` made exclusive; its group state is the first boolean of the heap. -/
def speedFlag : ComplexFlag Nat :=
  ((runCalls (exclusiveConfig speedDecls [["slow", "medium", "fast"]])
    (ComplexFlag.new Policy.MANDATORY "Specify the speed.") []).getD
    (ComplexFlag.new Policy.MANDATORY "Specify the speed.", [])).1

/-- A grammar root whose only child is the MANDATORY composite `--speed`:
`add<ComplexFlag>("--speed", ...)` on a fresh `ArgParser`, then the children
and the group configured through the returned reference. -/
def speedRoot : ArgParser Nat :=
  let added := (ComplexFlag.addFlag (ArgParser.new : ArgParser Nat).toComplexFlag
    FlagType.ComplexFlag "--speed" Policy.MANDATORY "Specify the speed.").1
  { toComplexFlagOf :=
      { added with flags := mapReplace added.flags "--speed" (FlagPtr.complexFlag speedFlag) }
    numberArgsSuccessfullyParsed := 0 }

/-- What a caller observes of a run of `speedRoot`: the outcome and, on
success, `parsed()` of every child of `--speed`. -/
def speedRun (fuel : Nat) (argv : List String) : MatchOutcome (List (String × Bool)) :=
  match ArgParser.validateArgs fuel speedRoot argv [false] with
  | .success root first heap =>
    match root.toComplexFlag.getFlags.lookup "--speed" with
    | some (.complexFlag c) => .success (c.flags.map (fun e => (e.1, e.2.parsed))) first heap
    | _ => .undefined
  | .failure e => .failure e
  | .undefined => .undefined
  | .outOfFuel => .outOfFuel

/-- The heap `h1` has the cells of `h`, and every state set in `h` is set in `h1`. -/
def Heap.le (h h1 : Heap) : Prop :=
  h1.length = h.length ∧ ∀ i : Nat, h[i]? = some true → h1[i]? = some true

/-- A composite's `parse` never allocates or resets a shared state. -/
def HeapMonotone {V : Type}
    (parseComplex : ComplexFlag V → List String → Nat → Nat → Heap → MatchOutcome (ComplexFlag V)) :
    Prop :=
  ∀ (cc : ComplexFlag V) (argv : List String) (first last : Nat) (heap : Heap)
    (cc1 : ComplexFlag V) (first1 : Nat) (heap1 : Heap),
    parseComplex cc argv first last heap = .success cc1 first1 heap1 → Heap.le heap heap1

/-- The exclusivity state of a composite during the matching pass: a name has
one group, every group state is allocated, at most one member of a group is
parsed, and the state of a group with a parsed member is set. -/
def ComplexFlag.exclusiveInv {V : Type} (c : ComplexFlag V) (heap : Heap) : Prop :=
  (c.getExclusiveFlags.map Prod.fst).Nodup ∧
  (∀ e ∈ c.getExclusiveFlags, e.2 < heap.length) ∧
  (∀ (st : SharedPtr) (n1 n2 : String), n1 ∈ c.groupMembers st → n2 ∈ c.groupMembers st →
    c.memberParsed n1 = true → c.memberParsed n2 = true → n1 = n2) ∧
  (∀ (st : SharedPtr) (n : String), n ∈ c.groupMembers st → c.memberParsed n = true →
    heap[st]? = some true)

/-- A configured composite before the matching pass: a name has one group,
every group state is allocated, and no member of a group is parsed. -/
def ComplexFlag.unparsedConfigured {V : Type} (c : ComplexFlag V) (heap : Heap) : Prop :=
  (c.getExclusiveFlags.map Prod.fst).Nodup ∧
  (∀ e ∈ c.getExclusiveFlags, e.2 < heap.length) ∧
  (∀ e ∈ c.getExclusiveFlags, c.memberParsed e.1 = false)

/-- The `--speed` composite after its `parse` on the tokens `fast`. -/
def speedParsed : ComplexFlag Nat :=
  match ComplexFlag.parse 1 speedFlag ["fast"] 0 1 [false] with
  | .success c _ _ => c
  | _ => speedFlag

/-- The call `std::unordered_map::operator[]` on the flag map, as `addExclusive` calls
it in `flags[flag]`: a key that is missing is added with a default (null)
`FlagPtr`. Gives the map after the call, a null `FlagPtr` being `none`, and the
`FlagPtr` the call refers to. -/
def flagsSubscript {V : Type} (m : FlagMap V) (flag : String) :
    List (String × Option (FlagPtr V)) × Option (FlagPtr V) :=
  match m.lookup flag with
  | some p => (m.map (fun e => (e.1, some e.2)), some p)
  | none => (m.map (fun e => (e.1, some e.2)) ++ [(flag, none)], none)

/-- The state in which `addExclusive(flag, sharedState)` reaches the
dereference in `flags[flag]->policy`: the exclusivity map after `insert`, the
flag map after `operator[]`, and the `FlagPtr` that is dereferenced. -/
def ComplexFlag.addExclusiveReached {V : Type} (c : ComplexFlag V) (flag : String)
    (sharedState : SharedPtr) :
    ExclusiveMap × List (String × Option (FlagPtr V)) × Option (FlagPtr V) :=
  ((mapInsert c.exclusiveFlags flag sharedState).1, flagsSubscript c.flags flag)

/-! ## Value-args and switch flags -/

/-- C1: when the cursor points at a token `t` and the converter accepts `t`
giving `v`, `Arg::parse` returns (raises nothing), `get()` is `v`, `parsed()`
is true and the cursor has moved by exactly one; this holds for both policies
and whatever `last` is. -/
theorem Arg.parse_accept {T : Type} (a : Arg T) (argv : List String) (first last : Nat)
    (t : String) (v : T) (ht : argv[first]? = some t)
    (hv : a.convert t a.parsedValue = ConvertOutcome.returned v) :
    ∃ a1 : Arg T, a.parse argv first last = Outcome.returned a1 (first + 1) ∧
      a1.get = Except.ok v ∧ a1.parsed = true ∧ a1.toArgBase.name = a.toArgBase.name ∧
      a1.policy = a.policy := by
  refine ⟨{ a with _parsed := true, parsedValue := v }, ?_, rfl, rfl, rfl, rfl⟩
  simp only [Arg.parse, ht, hv]

/-- Witness of C1: the example arg accepts the token `"7"` at position 1. -/
theorem Arg.parse_accept_witness :
    ∃ a1 : Arg Nat, exampleArg.parse ["x", "7", "y"] 1 3 = Outcome.returned a1 2 ∧
      a1.get = Except.ok 7 ∧ a1.parsed = true ∧ a1.toArgBase.name = exampleArg.toArgBase.name ∧
      a1.policy = exampleArg.policy :=
  Arg.parse_accept exampleArg ["x", "7", "y"] 1 3 "7" 7 rfl rfl

/-- C2: `Arg::parse` raises exactly when the arg is MANDATORY and the
converter rejects the token at the cursor; when it raises, the failure is the
conversion failure made of the arg's name and the converter's message, the
cursor is where it was and `parsed()` is false. -/
theorem Arg.parse_threw_iff {T : Type} (a : Arg T) (argv : List String) (first last : Nat) :
    ((∃ e a1 f, a.parse argv first last = Outcome.threw e a1 f) ↔
      (a.policy = Policy.MANDATORY ∧ ∃ t msg slot, argv[first]? = some t ∧
        a.convert t a.parsedValue = ConvertOutcome.threw msg slot)) ∧
    (∀ e a1 f, a.parse argv first last = Outcome.threw e a1 f →
      f = first ∧ a1.parsed = false ∧ ∃ t msg slot, argv[first]? = some t ∧
        a.convert t a.parsedValue = ConvertOutcome.threw msg slot ∧
        e = ParseException.FailedArgConversion a.name msg.message) := by
  unfold Arg.parse
  cases ht : argv[first]? with
  | none => simp
  | some t =>
    cases hc : a.convert t a.parsedValue with
    | returned v => simp [hc]
    | threw msg slot =>
      by_cases hp : a.policy = Policy.MANDATORY
      · simp only [hc, hp, if_true]
        refine ⟨⟨fun _ => ⟨trivial, t, msg, slot, rfl, hc⟩, fun _ => ⟨_, _, _, rfl⟩⟩, ?_⟩
        intro e a1 f h
        cases h
        exact ⟨rfl, rfl, t, msg, slot, rfl, hc, rfl⟩
      · simp [hc, hp]

/-- Witness of C2: a mandatory arg offered a token its converter rejects. -/
theorem Arg.parse_threw_iff_witness :
    ∃ e a1 f, (Arg.new 0 "n" Policy.MANDATORY "a number" sevenOnly).parse ["x"] 0 1 =
      Outcome.threw e a1 f :=
  (Arg.parse_threw_iff (Arg.new 0 "n" Policy.MANDATORY "a number" sevenOnly) ["x"] 0 1).1.2
    ⟨rfl, "x", { message := "expected 7" }, 0, rfl, rfl⟩

/-- C3: an OPTIONAL arg whose converter rejects the token at the cursor
returns normally, leaves the cursor where it was and has `parsed()` false. -/
theorem Arg.parse_optional_reject {T : Type} (a : Arg T) (argv : List String)
    (first last : Nat) (t : String) (msg : ErrorMessage) (slot : T)
    (hp : a.policy = Policy.OPTIONAL) (ht : argv[first]? = some t)
    (hc : a.convert t a.parsedValue = ConvertOutcome.threw msg slot) :
    ∃ a1 : Arg T, a.parse argv first last = Outcome.returned a1 first ∧ a1.parsed = false := by
  refine ⟨{ a with _parsed := false, parsedValue := slot }, ?_, rfl⟩
  simp [Arg.parse, ht, hc, hp]

/-- Witness of C3: the optional example arg offered the token `"x"`. -/
theorem Arg.parse_optional_reject_witness :
    ∃ a1 : Arg Nat, exampleArg.parse ["x"] 0 1 = Outcome.returned a1 0 ∧ a1.parsed = false :=
  Arg.parse_optional_reject exampleArg ["x"] 0 1 "x" { message := "expected 7" } 0 rfl rfl rfl

/-- C4: `Flag::parse` of a switch flag returns for every vector and every
cursor and end (the cursor at the end included), with `parsed()` true, the
cursor unchanged, policy and description kept, and the same result whatever
the vector and the end are. -/
theorem Flag.parse_switch (f : Flag) (argv : List String) (first last : Nat) :
    ∃ f1 : Flag, f.parse argv first last = Outcome.returned f1 first ∧ f1.parsed = true ∧
      f1.policy = f.policy ∧ f1.description = f.description ∧
      ∀ (argv1 : List String) (last1 : Nat), f.parse argv1 first last1 = Outcome.returned f1 first :=
  ⟨{ f with _parsed := true }, rfl, rfl, rfl, rfl, fun _ _ => rfl⟩

/-- Lemma: `Flag::parse` always leaves a parsed flag behind. -/
theorem Flag.parseCalls_parsed (calls : List ParseCall) (f : Flag) :
    ∃ f1 : Flag, f.parseCalls calls = some f1 ∧ (f.parsed = true → f1.parsed = true) ∧
      (calls ≠ [] → f1.parsed = true) := by
  induction calls generalizing f with
  | nil => exact ⟨f, rfl, id, fun h => absurd rfl h⟩
  | cons call calls ih =>
    obtain ⟨f1, h1, h2, _⟩ := ih { f with _parsed := true }
    exact ⟨f1, h1, fun _ => h2 rfl, fun _ => h2 rfl⟩

/-- Counterexample to C5 as stated: the example arg is parsed after the
accepted token `"7"`, and a second `parse` call with the rejected token `"x"`
resets `parsed()` to false. -/
theorem Arg.parsed_reset_counterexample :
    (exampleArg.parseCalls [(["7"], 0, 1)]).map (fun a => a.parsed) = some true ∧
    (exampleArg.parseCalls [(["7"], 0, 1), (["x"], 0, 1)]).map (fun a => a.parsed) =
      some false :=
  ⟨rfl, rfl⟩

/-- C5 (amended): every token is created with `parsed()` false; a switch flag
that is parsed stays parsed after any sequence of `parse` calls (and is parsed
after any non-empty one); a value-arg's `parsed()` is set anew by every `parse`
call: after a call on a token `t` it is true exactly when the converter
accepted `t`, whether the call returned or raised. -/
theorem parsed_lifecycle {T V : Type} (policy : Policy) (description name : String) (init : T)
    (convert : String → T → ConvertOutcome T) (f : Flag) (calls : List ParseCall)
    (a : Arg T) (argv : List String) (first last : Nat) (t : String)
    (ht : argv[first]? = some t) :
    (ParseToken.new policy description).parsed = false ∧
    (Flag.new policy description).parsed = false ∧
    (Arg.new init name policy description convert).parsed = false ∧
    (ComplexFlag.new policy description : ComplexFlag V).parsed = false ∧
    (∃ f1 : Flag, f.parseCalls calls = some f1 ∧ (f.parsed = true → f1.parsed = true) ∧
      (calls ≠ [] → f1.parsed = true)) ∧
    (∃ a1 : Arg T, (a.parse argv first last).obj? = some a1 ∧
      (a1.parsed = true ↔ ∃ v, a.convert t a.parsedValue = ConvertOutcome.returned v)) := by
  refine ⟨rfl, rfl, rfl, rfl, Flag.parseCalls_parsed calls f, ?_⟩
  unfold Arg.parse
  simp only [ht]
  cases hc : a.convert t a.parsedValue with
  | returned v => exact ⟨_, rfl, by simp [ParseToken.parsed]⟩
  | threw msg slot =>
    by_cases hp : a.policy = Policy.MANDATORY
    · simp only [hp, if_true]
      exact ⟨_, rfl, by simp [ParseToken.parsed]⟩
    · simp only [hp, if_false]
      exact ⟨_, rfl, by simp [ParseToken.parsed]⟩

/-- Witness of C5 (amended): the example arg offered the token `"x"`. -/
theorem parsed_lifecycle_witness :
    ∃ a1 : Arg Nat, (exampleArg.parse ["x"] 0 1).obj? = some a1 ∧
      (a1.parsed = true ↔
        ∃ v, exampleArg.convert "x" exampleArg.parsedValue = ConvertOutcome.returned v) :=
  (parsed_lifecycle (V := Nat) Policy.OPTIONAL "d" "n" 0 sevenOnly (Flag.new Policy.OPTIONAL "d")
    [] exampleArg ["x"] 0 1 "x" rfl).2.2.2.2.2

/-- Counterexample to C6 as stated: the example arg has `parsed()` false, both
when never parsed and after the rejected token `"x"`, and `get()` returns its
slot in both states instead of signalling an error. -/
theorem Arg.get_unparsed_counterexample :
    exampleArg.parsed = false ∧ exampleArg.get = Except.ok 0 ∧
    (exampleArg.parseCalls [(["x"], 0, 1)]).map (fun a => (a.parsed, a.get)) =
      some (false, Except.ok 0) :=
  ⟨rfl, rfl, rfl⟩

/-- C6 (amended): `get()` checks nothing: for every value-arg, parsed or not,
it returns the slot and signals no error; on a never parsed arg that is the
slot's initial content, and after a `parse` call whose token the converter
rejected it is the slot as the converter left it, with `parsed()` false. -/
theorem Arg.get_unchecked {T : Type} (a : Arg T) (init : T) (name description : String)
    (policy : Policy) (convert : String → T → ConvertOutcome T) (argv : List String)
    (first last : Nat) (t : String) (msg : ErrorMessage) (slot : T)
    (ht : argv[first]? = some t)
    (hc : a.convert t a.parsedValue = ConvertOutcome.threw msg slot) :
    a.get = Except.ok a.parsedValue ∧
    (Arg.new init name policy description convert).get = Except.ok init ∧
    ∃ a1 : Arg T, (a.parse argv first last).obj? = some a1 ∧ a1.parsed = false ∧
      a1.get = Except.ok slot := by
  refine ⟨rfl, rfl, ?_⟩
  unfold Arg.parse
  simp only [ht, hc]
  by_cases hp : a.policy = Policy.MANDATORY
  · simp only [hp, if_true]
    exact ⟨_, rfl, rfl, rfl⟩
  · simp only [hp, if_false]
    exact ⟨_, rfl, rfl, rfl⟩

/-- Witness of C6 (amended): the example arg and the rejected token `"x"`. -/
theorem Arg.get_unchecked_witness :
    exampleArg.get = Except.ok exampleArg.parsedValue ∧
    (Arg.new 0 "n" Policy.OPTIONAL "a number" sevenOnly).get = Except.ok 0 ∧
    ∃ a1 : Arg Nat, (exampleArg.parse ["x"] 0 1).obj? = some a1 ∧ a1.parsed = false ∧
      a1.get = Except.ok 0 :=
  Arg.get_unchecked exampleArg 0 "n" "a number" Policy.OPTIONAL sevenOnly ["x"] 0 1 "x"
    { message := "expected 7" } 0 rfl rfl

/-! ## Composite flags: counters and declaration order -/

/-- C7 (evaluation at the failing input): the fresh composite reports
`numberMandatoryFlags() = 0` and `numberOptionalFlags() = -1`; after adding the
optional child `-p` and the mandatory child `--speed`, which makes one optional
and one mandatory child, it reports 1 and 0. -/
theorem ComplexFlag.numberOptionalFlags_fresh :
    (ComplexFlag.new Policy.MANDATORY "" : ComplexFlag Nat).numberMandatoryFlags = 0 ∧
    (ComplexFlag.new Policy.MANDATORY "" : ComplexFlag Nat).numberOptionalFlags = -1 ∧
    (runCalls [Call.addFlag FlagType.ComplexFlag "-p" Policy.OPTIONAL "Specify power output.",
        Call.addFlag FlagType.ComplexFlag "--speed" Policy.MANDATORY "Specify the speed."]
      (ComplexFlag.new Policy.MANDATORY "" : ComplexFlag Nat) []).map
        (fun r => (r.1.getFlags.map (fun e => (e.1, e.2.policy)),
          r.1.numberMandatoryFlags, r.1.numberOptionalFlags)) =
      some ([("-p", Policy.OPTIONAL), ("--speed", Policy.MANDATORY)], 1, 0) := by
  refine ⟨by decide, by decide, by decide⟩

/-- Lemma: `addExclusive` touches only the exclusivity map and counters. -/
theorem ComplexFlag.addExclusive_frame {V : Type} (c c1 : ComplexFlag V) (s : String)
    (st : SharedPtr) (h : ComplexFlag.addExclusive c s st = some c1) :
    ComplexFlag.sameButExclusive c c1 := by
  unfold ComplexFlag.addExclusive at h
  simp only at h
  cases hl : c.flags.lookup s with
  | none => simp [hl] at h
  | some p =>
    simp only [hl] at h
    split at h <;> (cases h; exact ⟨rfl, rfl, rfl, rfl, rfl, rfl, rfl, rfl⟩)

/-- Lemma: `sameButExclusive` composes. -/
theorem ComplexFlag.sameButExclusive_trans {V : Type} {c c1 c2 : ComplexFlag V}
    (h1 : ComplexFlag.sameButExclusive c c1) (h2 : ComplexFlag.sameButExclusive c1 c2) :
    ComplexFlag.sameButExclusive c c2 := by
  obtain ⟨a1, a2, a3, a4, a5, a6, a7, a8⟩ := h1
  obtain ⟨b1, b2, b3, b4, b5, b6, b7, b8⟩ := h2
  exact ⟨b1.trans a1, b2.trans a2, b3.trans a3, b4.trans a4, b5.trans a5, b6.trans a6,
    b7.trans a7, b8.trans a8⟩

/-- Lemma: the pack expansion touches only the exclusivity map and counters. -/
theorem ComplexFlag.unpack_frame {V : Type} (st : SharedPtr) (strings : List String)
    (c c1 : ComplexFlag V) (h : ComplexFlag.unpack st strings c = some c1) :
    ComplexFlag.sameButExclusive c c1 := by
  induction strings generalizing c with
  | nil =>
    simp only [ComplexFlag.unpack, Option.some.injEq] at h
    subst h
    exact ⟨rfl, rfl, rfl, rfl, rfl, rfl, rfl, rfl⟩
  | cons s strings ih =>
    simp only [ComplexFlag.unpack] at h
    cases ha : ComplexFlag.addExclusive c s st with
    | none => simp [ha] at h
    | some c0 =>
      simp only [ha] at h
      exact ComplexFlag.sameButExclusive_trans (ComplexFlag.addExclusive_frame c c0 s st ha)
        (ih c0 h)

/-- Lemma: `makeExclusive` touches only the exclusivity map and counters. -/
theorem ComplexFlag.makeExclusive_frame {V : Type} (c : ComplexFlag V) (strings : List String)
    (heap : Heap) (r : SharedPtr × ComplexFlag V × Heap)
    (h : ComplexFlag.makeExclusive c strings heap = some r) :
    ComplexFlag.sameButExclusive c r.2.1 := by
  unfold ComplexFlag.makeExclusive at h
  simp only at h
  cases hu : ComplexFlag.unpack heap.length strings c with
  | none => simp [hu] at h
  | some c1 =>
    simp only [hu, Option.some.injEq] at h
    subst h
    have hf := ComplexFlag.unpack_frame heap.length strings c c1 hu
    obtain ⟨a1, a2, a3, a4, a5, a6, a7, a8⟩ := hf
    refine ⟨?_, ?_, ?_, ?_, ?_, ?_, ?_, ?_⟩ <;> (simp only; split_ifs <;> assumption)

/-- Lemma: one configuration call appends the arg it declares, if any. -/
theorem Call.run_args {V : Type} (call : Call V) (c : ComplexFlag V) (heap : Heap)
    (r : ComplexFlag V × Heap) (h : call.run c heap = some r) :
    r.1.args = c.args ++ (call.declaredArg).toList := by
  cases call with
  | addFlag T flag policy description =>
    simp only [Call.run, Option.some.injEq] at h
    subst h
    simp only [ComplexFlag.addFlag, Call.declaredArg, Option.toList, List.append_nil]
    split_ifs <;> rfl
  | addArg init name policy description convert =>
    simp only [Call.run, Option.some.injEq] at h
    subst h
    simp only [ComplexFlag.addArg, Call.declaredArg, Option.toList]
    split_ifs <;> rfl
  | makeExclusive strings =>
    simp only [Call.run] at h
    cases hm : ComplexFlag.makeExclusive c strings heap with
    | none => simp [hm] at h
    | some r0 =>
      simp only [hm, Option.some.injEq] at h
      subst h
      have hf := ComplexFlag.makeExclusive_frame c strings heap r0 hm
      simp only [Call.declaredArg, Option.toList, List.append_nil]
      exact hf.2.2.2.1

/-- Lemma: a call sequence appends the args it declares, in call order. -/
theorem runCalls_args {V : Type} (calls : List (Call V)) (c c1 : ComplexFlag V)
    (heap heap1 : Heap) (h : runCalls calls c heap = some (c1, heap1)) :
    c1.args = c.args ++ declaredArgs calls := by
  induction calls generalizing c heap with
  | nil =>
    simp only [runCalls, Option.some.injEq, Prod.mk.injEq] at h
    simp [declaredArgs, h.1]
  | cons call calls ih =>
    simp only [runCalls] at h
    cases hr : call.run c heap with
    | none => simp [hr] at h
    | some r =>
      simp only [hr] at h
      rw [ih r.1 r.2 h, Call.run_args call c heap r hr]
      cases hd : call.declaredArg <;> simp [declaredArgs, List.filterMap_cons, hd]

/-- Lemma: every declared arg comes from an `add<ArgType>` call of the
sequence and carries that call's name, policy and description, unparsed. -/
theorem declaredArgs_spec {V : Type} (calls : List (Call V)) (a : Arg V)
    (ha : a ∈ declaredArgs calls) :
    ∃ init name policy description convert,
      Call.addArg init name policy description convert ∈ calls ∧
      a = Arg.new init name policy description convert ∧ a.name = name ∧ a.policy = policy ∧
      a.description = description ∧ a.parsed = false := by
  simp only [declaredArgs, List.mem_filterMap] at ha
  obtain ⟨call, hmem, hcall⟩ := ha
  cases call with
  | addFlag T flag policy description => simp [Call.declaredArg] at hcall
  | makeExclusive strings => simp [Call.declaredArg] at hcall
  | addArg init name policy description convert =>
    simp only [Call.declaredArg, Option.some.injEq] at hcall
    subst hcall
    exact ⟨init, name, policy, description, convert, hmem, rfl, rfl, rfl, rfl, rfl⟩

/-- C9: after any sequence of configuration calls that completes, `getArgs()`
is the earlier args followed by the args declared by the `add<ArgType>` calls,
in call order (on a fresh composite: exactly those), each with its declared
name, policy and description and `parsed()` false; one `add<ArgType>` call
appends its arg behind the earlier ones and leaves the flag map, the insertion
order and the exclusivity map as they were. -/
theorem ComplexFlag.getArgs_declaration_order {V : Type} (calls : List (Call V))
    (c c1 : ComplexFlag V) (heap heap1 : Heap) (policy : Policy) (description : String)
    (h : runCalls calls c heap = some (c1, heap1)) :
    c1.getArgs = c.getArgs ++ declaredArgs calls ∧
    (ComplexFlag.new policy description : ComplexFlag V).getArgs = [] ∧
    (∀ a ∈ declaredArgs calls, ∃ init name policy description convert,
      Call.addArg init name policy description convert ∈ calls ∧
      a = Arg.new init name policy description convert ∧ a.name = name ∧ a.policy = policy ∧
      a.description = description ∧ a.parsed = false) ∧
    (∀ (c0 : ComplexFlag V) (init : V) (name : String) (p : Policy) (d : String)
      (convert : String → V → ConvertOutcome V),
      (ComplexFlag.addArg c0 init name p d convert).1.getArgs =
        c0.getArgs ++ [Arg.new init name p d convert] ∧
      (ComplexFlag.addArg c0 init name p d convert).2 = Arg.new init name p d convert ∧
      (ComplexFlag.addArg c0 init name p d convert).1.getFlags = c0.getFlags ∧
      (ComplexFlag.addArg c0 init name p d convert).1.getFlagInsertionOrder =
        c0.getFlagInsertionOrder ∧
      (ComplexFlag.addArg c0 init name p d convert).1.getExclusiveFlags =
        c0.getExclusiveFlags) := by
  refine ⟨runCalls_args calls c c1 heap heap1 h, rfl, declaredArgs_spec calls, ?_⟩
  intro c0 init name p d convert
  by_cases hp : (Arg.new init name p d convert).policy = Policy.MANDATORY <;>
    simp [ComplexFlag.addArg, ComplexFlag.getArgs, ComplexFlag.getFlags,
      ComplexFlag.getFlagInsertionOrder, ComplexFlag.getExclusiveFlags, hp]

/-- Witness of C9: the example call sequence on a fresh composite. -/
theorem ComplexFlag.getArgs_declaration_order_witness :
    exampleComposite.getArgs =
      (ComplexFlag.new Policy.MANDATORY "" : ComplexFlag Nat).getArgs ++
        declaredArgs exampleCalls :=
  (ComplexFlag.getArgs_declaration_order exampleCalls (ComplexFlag.new Policy.MANDATORY "")
    exampleComposite [] [false] Policy.MANDATORY "" rfl).1

/-- Lemma: the two policies split any list of value-args. -/
theorem countArgs_add {V : Type} (args : List (Arg V)) :
    (args.filter (fun a => decide (a.policy = Policy.MANDATORY))).length +
      (args.filter (fun a => decide (a.policy = Policy.OPTIONAL))).length = args.length := by
  induction args with
  | nil => rfl
  | cons a args ih =>
    cases hp : a.policy <;> simp [List.filter_cons, hp] <;> omega

/-- Lemma: one configuration call keeps the arg counters exact. -/
theorem Call.run_argCounters {V : Type} (call : Call V) (c : ComplexFlag V) (heap : Heap)
    (r : ComplexFlag V × Heap) (h : call.run c heap = some r)
    (hc : ComplexFlag.argCountersExact c) : ComplexFlag.argCountersExact r.1 := by
  unfold ComplexFlag.argCountersExact ComplexFlag.numberMandatoryArgs
    ComplexFlag.numberOptionalArgs ComplexFlag.countArgs ComplexFlag.getArgs at *
  cases call with
  | addFlag T flag policy description =>
    simp only [Call.run, Option.some.injEq] at h
    subst h
    simp only [ComplexFlag.addFlag]
    split_ifs <;> exact hc
  | addArg init name policy description convert =>
    simp only [Call.run, Option.some.injEq] at h
    subst h
    obtain ⟨h1, h2⟩ := hc
    cases policy <;>
      simp [ComplexFlag.addArg, Arg.new, ArgBase.new, ParseToken.new, List.filter_append, h1, h2]
  | makeExclusive strings =>
    simp only [Call.run] at h
    cases hm : ComplexFlag.makeExclusive c strings heap with
    | none => simp [hm] at h
    | some r0 =>
      simp only [hm, Option.some.injEq] at h
      subst h
      obtain ⟨_, _, _, a4, _, _, a7, a8⟩ := ComplexFlag.makeExclusive_frame c strings heap r0 hm
      simp only [a4, a7, a8]
      exact hc

/-- Lemma: a call sequence keeps the arg counters exact. -/
theorem runCalls_argCounters {V : Type} (calls : List (Call V)) (c c1 : ComplexFlag V)
    (heap heap1 : Heap) (h : runCalls calls c heap = some (c1, heap1))
    (hc : ComplexFlag.argCountersExact c) : ComplexFlag.argCountersExact c1 := by
  induction calls generalizing c heap with
  | nil =>
    simp only [runCalls, Option.some.injEq, Prod.mk.injEq] at h
    rw [← h.1]
    exact hc
  | cons call calls ih =>
    simp only [runCalls] at h
    cases hr : call.run c heap with
    | none => simp [hr] at h
    | some r =>
      simp only [hr] at h
      exact ih r.1 r.2 h (Call.run_argCounters call c heap r hr hc)

/-- C10: in every composite reached from a fresh one by configuration calls,
`numberMandatoryArgs()` is the number of MANDATORY args of `getArgs()`,
`numberOptionalArgs()` the number of OPTIONAL ones, and their sum is the length
of `getArgs()`; `add<FlagType>` and `makeExclusive` change neither counter. -/
theorem ComplexFlag.numberArgs_exact {V : Type} (calls : List (Call V)) (policy : Policy)
    (description : String) (heap heap1 : Heap) (c1 : ComplexFlag V)
    (h : runCalls calls (ComplexFlag.new policy description) heap = some (c1, heap1)) :
    c1.numberMandatoryArgs = c1.countArgs Policy.MANDATORY ∧
    c1.numberOptionalArgs = c1.countArgs Policy.OPTIONAL ∧
    c1.numberMandatoryArgs + c1.numberOptionalArgs = c1.getArgs.length ∧
    (∀ (c : ComplexFlag V) (T : FlagType) (flag : String) (p : Policy) (d : String),
      (ComplexFlag.addFlag c T flag p d).1.numberMandatoryArgs = c.numberMandatoryArgs ∧
      (ComplexFlag.addFlag c T flag p d).1.numberOptionalArgs = c.numberOptionalArgs) ∧
    (∀ (c : ComplexFlag V) (strings : List String) (hp : Heap)
      (r : SharedPtr × ComplexFlag V × Heap), ComplexFlag.makeExclusive c strings hp = some r →
      r.2.1.numberMandatoryArgs = c.numberMandatoryArgs ∧
      r.2.1.numberOptionalArgs = c.numberOptionalArgs) := by
  have hinv := runCalls_argCounters calls (ComplexFlag.new policy description) c1 heap heap1 h
    ⟨rfl, rfl⟩
  refine ⟨hinv.1, hinv.2, ?_, ?_, ?_⟩
  · rw [hinv.1, hinv.2]
    have := countArgs_add c1.getArgs
    unfold ComplexFlag.countArgs
    exact_mod_cast this
  · intro c T flag p d
    simp only [ComplexFlag.addFlag, ComplexFlag.numberMandatoryArgs,
      ComplexFlag.numberOptionalArgs]
    split_ifs <;> exact ⟨rfl, rfl⟩
  · intro c strings hp r hr
    have hf := ComplexFlag.makeExclusive_frame c strings hp r hr
    exact ⟨hf.2.2.2.2.2.2.1, hf.2.2.2.2.2.2.2⟩

/-- Witness of C10: the example call sequence, one MANDATORY and one OPTIONAL arg. -/
theorem ComplexFlag.numberArgs_exact_witness :
    exampleComposite.numberMandatoryArgs = exampleComposite.countArgs Policy.MANDATORY ∧
    exampleComposite.numberOptionalArgs = exampleComposite.countArgs Policy.OPTIONAL :=
  let h := ComplexFlag.numberArgs_exact exampleCalls Policy.MANDATORY "" [] [false]
    exampleComposite rfl
  ⟨h.1, h.2.1⟩

/-- Counterexample to C8 as stated: in the example of `exampleUsage.cpp`
(`slow`, `medium`, `fast` MANDATORY and made exclusive) no MANDATORY child is
outside a group, yet `numberMandatoryFlags()` is 1. -/
theorem ComplexFlag.numberMandatoryFlags_group_counterexample :
    (runCalls (exclusiveConfig speedDecls [["slow", "medium", "fast"]])
      (ComplexFlag.new Policy.MANDATORY "Specify the speed." : ComplexFlag Nat) []).map
        (fun r => (r.1.numberMandatoryFlags, r.1.countUngroupedFlags Policy.MANDATORY)) =
      some (1, 0) := by
  decide

/-- Lemma: in a map with unique keys, the entries satisfying `P` are those
satisfying `P` under another key than `s`, and the entry of `s` if it does. -/
theorem filter_length_split_key {β : Type} (P : String × β → Bool) (s : String) (v : β)
    (l : List (String × β)) (hn : (l.map Prod.fst).Nodup) (hl : l.lookup s = some v) :
    (l.filter P).length =
      (l.filter (fun e => P e && (e.1 != s))).length + (if P (s, v) then 1 else 0) := by
  induction l with
  | nil => simp at hl
  | cons e es ih =>
    obtain ⟨k, b⟩ := e
    simp only [List.map_cons, List.nodup_cons, List.mem_map, not_exists, not_and] at hn
    by_cases hk : s = k
    · subst hk
      simp only [List.lookup_cons_self, Option.some.injEq] at hl
      subst hl
      have hrest : es.filter (fun e => P e && (e.1 != s)) = es.filter P := by
        apply List.filter_congr
        intro x hx
        have : x.1 ≠ s := hn.1 x hx
        simp [this]
      cases hP : P (s, b) <;> simp [List.filter_cons, hP, hrest]
    · have hl1 : es.lookup s = some v := by
        rw [List.lookup_cons] at hl
        have : (s == k) = false := by simpa using hk
        simpa [this] using hl
      have ih1 := ih hn.2 hl1
      have hne : (k != s) = true := by simpa using fun h => hk h.symm
      cases hP : P (k, b) <;> simp only [List.filter_cons, hP, hne, Bool.and_true,
        Bool.false_and, List.length_cons, ih1] <;> simp <;> omega

/-- Lemma: giving a child flag that is in no group an exclusivity entry takes
it, and nothing else, out of the ungrouped flags of its policy. -/
theorem ComplexFlag.countUngroupedFlags_insert {V : Type} (c c1 : ComplexFlag V) (s : String)
    (st : SharedPtr) (p : FlagPtr V) (q : Policy) (hf : c1.flags = c.flags)
    (hx1 : c1.exclusiveFlags = c.exclusiveFlags ++ [(s, st)])
    (hn : (c.flags.map Prod.fst).Nodup) (hl : c.flags.lookup s = some p)
    (hx : c.exclusiveFlags.lookup s = none) :
    c1.countUngroupedFlags q + (if p.policy = q then 1 else 0) = c.countUngroupedFlags q := by
  have hsplit := filter_length_split_key
    (fun e => decide (e.2.policy = q) && !c.isExclusive e.1) s p c.flags hn hl
  have hP : (decide (p.policy = q) && !c.isExclusive s) = decide (p.policy = q) := by
    simp [ComplexFlag.isExclusive, ComplexFlag.getExclusiveFlags, hx]
  have hpred : (fun e : String × FlagPtr V => decide (e.2.policy = q) && !c1.isExclusive e.1) =
      (fun e => (decide (e.2.policy = q) && !c.isExclusive e.1) && (e.1 != s)) := by
    funext e
    simp only [ComplexFlag.isExclusive, ComplexFlag.getExclusiveFlags, hx1, List.lookup_append,
      List.lookup_cons, List.lookup_nil]
    cases h1 : List.lookup e.1 c.exclusiveFlags <;> cases h2 : (e.1 == s) <;>
      simp [bne, h2]
  unfold ComplexFlag.countUngroupedFlags ComplexFlag.getFlags
  rw [hf, hpred, hsplit]
  simp only [hP, decide_eq_true_eq]

/-- Lemma: `addExclusive` on a child flag that is in no group completes, adds
the entry and moves one unit from the ungrouped flags of the flag's policy to
the exclusivity counter of that policy. -/
theorem ComplexFlag.addExclusive_count {V : Type} (c : ComplexFlag V) (s : String)
    (st : SharedPtr) (p : FlagPtr V) (hn : (c.flags.map Prod.fst).Nodup)
    (hl : c.flags.lookup s = some p) (hx : c.exclusiveFlags.lookup s = none) :
    ∃ c1 : ComplexFlag V, ComplexFlag.addExclusive c s st = some c1 ∧
      c1.exclusiveFlags = c.exclusiveFlags ++ [(s, st)] ∧
      ∀ q : Policy, c1.rawExclusive q = c.rawExclusive q + (if p.policy = q then 1 else 0) ∧
        c1.countUngroupedFlags q + (if p.policy = q then 1 else 0) =
          c.countUngroupedFlags q := by
  by_cases hp : p.policy = Policy.MANDATORY
  · refine ⟨{ c with
      _numberExclusiveMandatoryFlags := c._numberExclusiveMandatoryFlags + 1
      exclusiveFlags := c.exclusiveFlags ++ [(s, st)] }, ?_, rfl, ?_⟩
    · simp [ComplexFlag.addExclusive, mapInsert, hx, hl, hp]
    · intro q
      refine ⟨?_, ComplexFlag.countUngroupedFlags_insert c _ s st p q rfl rfl hn hl hx⟩
      cases q <;> simp [ComplexFlag.rawExclusive, hp]
  · refine ⟨{ c with
      _numberExclusiveOptionalFlags := c._numberExclusiveOptionalFlags + 1
      exclusiveFlags := c.exclusiveFlags ++ [(s, st)] }, ?_, rfl, ?_⟩
    · simp [ComplexFlag.addExclusive, mapInsert, hx, hl, hp]
    · intro q
      refine ⟨?_, ComplexFlag.countUngroupedFlags_insert c _ s st p q rfl rfl hn hl hx⟩
      have hp2 : p.policy = Policy.OPTIONAL := by
        cases h : p.policy
        · exact absurd h hp
        · rfl
      cases q <;> simp [ComplexFlag.rawExclusive, hp2]

/-- Lemma: `hasMember` reads only the flag map. -/
theorem ComplexFlag.hasMember_congr {V : Type} (c c1 : ComplexFlag V) (q : Policy)
    (g : List String) (hf : c1.flags = c.flags) : c1.hasMember q g = c.hasMember q g := by
  simp only [ComplexFlag.hasMember, ComplexFlag.getFlags, hf]

/-- Lemma: the pack expansion over distinct child flags that are in no group
completes, appends their entries, keeps "exclusivity counter + ungrouped
flags" of each policy, and raises the exclusivity counter of a policy exactly
when a listed flag has that policy. -/
theorem ComplexFlag.unpack_count {V : Type} (st : SharedPtr) (g : List String)
    (c : ComplexFlag V) (hn : (c.flags.map Prod.fst).Nodup) (hg : g.Nodup)
    (hsub : ∀ s ∈ g, ∃ p, c.flags.lookup s = some p)
    (hx : ∀ s ∈ g, c.exclusiveFlags.lookup s = none) :
    ∃ c1 : ComplexFlag V, ComplexFlag.unpack st g c = some c1 ∧
      c1.exclusiveFlags = c.exclusiveFlags ++ g.map (fun s => (s, st)) ∧
      ∀ q : Policy,
        c1.rawExclusive q + c1.countUngroupedFlags q =
          c.rawExclusive q + c.countUngroupedFlags q ∧
        c.rawExclusive q ≤ c1.rawExclusive q ∧
        (c1.rawExclusive q ≠ c.rawExclusive q ↔ c.hasMember q g = true) := by
  induction g generalizing c with
  | nil =>
    refine ⟨c, rfl, by simp, fun q => ⟨rfl, le_refl _, ?_⟩⟩
    simp [ComplexFlag.hasMember]
  | cons s g ih =>
    obtain ⟨p, hl⟩ := hsub s (List.mem_cons_self s g)
    obtain ⟨c0, h0, hx0, hq0⟩ :=
      ComplexFlag.addExclusive_count c s st p hn hl (hx s (List.mem_cons_self s g))
    have hf0 : c0.flags = c.flags := (ComplexFlag.addExclusive_frame c c0 s st h0).2.1
    have hg1 : s ∉ g ∧ g.Nodup := List.nodup_cons.mp hg
    have hx1 : ∀ s1 ∈ g, c0.exclusiveFlags.lookup s1 = none := by
      intro s1 hs1
      have hne : (s1 == s) = false := by
        have : s1 ≠ s := fun h => hg1.1 (h ▸ hs1)
        simpa using this
      rw [hx0, List.lookup_append, hx s1 (List.mem_cons_of_mem s hs1)]
      simp [List.lookup_cons, hne]
    obtain ⟨c1, h1, hx2, hq1⟩ := ih c0 (by rw [hf0]; exact hn) hg1.2
      (by intro s1 hs1; rw [hf0]; exact hsub s1 (List.mem_cons_of_mem s hs1)) hx1
    refine ⟨c1, ?_, ?_, ?_⟩
    · simp only [ComplexFlag.unpack, h0, h1]
    · rw [hx2, hx0]
      simp
    · intro q
      obtain ⟨e1, e2, e3⟩ := hq1 q
      obtain ⟨d1, d2⟩ := hq0 q
      have d2i : (c0.countUngroupedFlags q : Int) + (if p.policy = q then 1 else 0) =
          c.countUngroupedFlags q := by exact_mod_cast d2
      have hmem : c.hasMember q (s :: g) = (decide (p.policy = q) || c.hasMember q g) := by
        simp [ComplexFlag.hasMember, ComplexFlag.getFlags, hl]
      rw [ComplexFlag.hasMember_congr c c0 q g hf0] at e3
      refine ⟨by omega, ?_, ?_⟩
      · rw [d1] at e2
        split_ifs at e2 <;> omega
      · rw [hmem]
        by_cases hpq : p.policy = q
        · simp only [hpq, if_true] at d1
          simp only [hpq, decide_True, Bool.true_or, iff_true]
          omega
        · simp only [hpq, if_false, add_zero] at d1
          simp only [hpq, decide_False, Bool.false_or]
          rw [← d1]
          exact e3

/-- Lemma: `makeExclusive` over distinct child flags that are in no group
completes, returns a new shared state, appends the entries, and lowers
"exclusivity counter + ungrouped flags" of a policy by one exactly when a
listed flag has that policy. -/
theorem ComplexFlag.makeExclusive_count {V : Type} (c : ComplexFlag V) (g : List String)
    (heap : Heap) (hn : (c.flags.map Prod.fst).Nodup) (hg : g.Nodup)
    (hsub : ∀ s ∈ g, ∃ p, c.flags.lookup s = some p)
    (hx : ∀ s ∈ g, c.exclusiveFlags.lookup s = none) :
    ∃ c1 : ComplexFlag V,
      ComplexFlag.makeExclusive c g heap = some (heap.length, c1, heap ++ [false]) ∧
      c1.exclusiveFlags = c.exclusiveFlags ++ g.map (fun s => (s, heap.length)) ∧
      ∀ q : Policy,
        c1.rawExclusive q + c1.countUngroupedFlags q + (if c.hasMember q g then 1 else 0) =
          c.rawExclusive q + c.countUngroupedFlags q := by
  obtain ⟨c0, hu, hx0, hq0⟩ := ComplexFlag.unpack_count heap.length g c hn hg hsub hx
  have hf0 : c0.flags = c.flags := (ComplexFlag.unpack_frame heap.length g c c0 hu).2.1
  obtain ⟨m1, _, m3⟩ := hq0 Policy.MANDATORY
  obtain ⟨o1, _, o3⟩ := hq0 Policy.OPTIONAL
  simp only [ComplexFlag.rawExclusive] at m1 m3 o1 o3
  unfold ComplexFlag.makeExclusive
  simp only [hu]
  refine ⟨_, rfl, ?_, ?_⟩
  · split_ifs <;> exact hx0
  · intro q
    simp only [ComplexFlag.countUngroupedFlags, ComplexFlag.isExclusive,
      ComplexFlag.getFlags, ComplexFlag.getExclusiveFlags] at m1 o1 ⊢
    by_cases hM : c0._numberExclusiveMandatoryFlags = c._numberExclusiveMandatoryFlags <;>
      by_cases hO : c0._numberExclusiveOptionalFlags = c._numberExclusiveOptionalFlags
    all_goals
      have hmM := m3
      have hmO := o3
      simp only [ne_eq, hM, hO, not_true_eq_false, not_false_eq_true, false_iff, true_iff,
        Bool.not_eq_true] at hmM hmO
      simp only [ne_eq, hM, hO, not_true_eq_false, not_false_eq_true, if_true, if_false]
      cases q
      · simp only [ComplexFlag.rawExclusive, hmM]
        simp only [if_true, Bool.false_eq_true, if_false]
        omega
      · simp only [ComplexFlag.rawExclusive, hmO]
        simp only [if_true, Bool.false_eq_true, if_false]
        omega

/-- Lemma: `countGroupsWith` reads only the flag map. -/
theorem ComplexFlag.countGroupsWith_congr {V : Type} (c c1 : ComplexFlag V) (q : Policy)
    (groups : List (List String)) (hf : c1.flags = c.flags) :
    c1.countGroupsWith q groups = c.countGroupsWith q groups := by
  unfold ComplexFlag.countGroupsWith
  congr 1
  apply List.filter_congr
  intro g _
  exact ComplexFlag.hasMember_congr c c1 q g hf

/-- Lemma: a sequence of `makeExclusive` calls over pairwise disjoint lists of
distinct child flags that are in no group completes, and lowers "exclusivity
counter + ungrouped flags" of a policy by the number of lists with a flag of
that policy. -/
theorem runCalls_groups {V : Type} (groups : List (List String)) (c : ComplexFlag V)
    (heap : Heap) (hn : (c.flags.map Prod.fst).Nodup) (hj : groups.flatten.Nodup)
    (hsub : ∀ s ∈ groups.flatten, ∃ p, c.flags.lookup s = some p)
    (hx : ∀ s ∈ groups.flatten, c.exclusiveFlags.lookup s = none) :
    ∃ (c1 : ComplexFlag V) (heap1 : Heap),
      runCalls (groups.map Call.makeExclusive) c heap = some (c1, heap1) ∧
      ComplexFlag.sameButExclusive c c1 ∧
      c1.exclusiveFlags.map Prod.fst = c.exclusiveFlags.map Prod.fst ++ groups.flatten ∧
      ∀ q : Policy,
        c1.rawExclusive q + c1.countUngroupedFlags q + c.countGroupsWith q groups =
          c.rawExclusive q + c.countUngroupedFlags q := by
  induction groups generalizing c heap with
  | nil =>
    refine ⟨c, heap, rfl, ⟨rfl, rfl, rfl, rfl, rfl, rfl, rfl, rfl⟩, by simp, fun q => ?_⟩
    simp [ComplexFlag.countGroupsWith]
  | cons g groups ih =>
    simp only [List.flatten_cons] at hj hsub hx
    obtain ⟨hg, hrest, hdisj⟩ := List.nodup_append.mp hj
    obtain ⟨c0, h0, hx0, hq0⟩ := ComplexFlag.makeExclusive_count c g heap hn hg
      (fun s hs => hsub s (List.mem_append_left _ hs))
      (fun s hs => hx s (List.mem_append_left _ hs))
    have hfr0 := ComplexFlag.makeExclusive_frame c g heap _ h0
    have hf0 : c0.flags = c.flags := hfr0.2.1
    have hx1 : ∀ s ∈ groups.flatten, c0.exclusiveFlags.lookup s = none := by
      intro s hs
      have hsg : s ∉ g := fun h => hdisj h hs
      rw [hx0, List.lookup_append, hx s (List.mem_append_right _ hs)]
      simp only [Option.or, List.lookup_eq_none_iff, List.mem_map, forall_exists_index, and_imp]
      intro e s1 hs1 he
      subst he
      simpa using fun h : s = s1 => hsg (h ▸ hs1)
    obtain ⟨c1, heap1, h1, hfr1, hk1, hq1⟩ := ih c0 (heap ++ [false]) (by rw [hf0]; exact hn)
      hrest (by intro s hs; rw [hf0]; exact hsub s (List.mem_append_right _ hs)) hx1
    refine ⟨c1, heap1, ?_, ComplexFlag.sameButExclusive_trans hfr0 hfr1, ?_, fun q => ?_⟩
    · simp only [List.map_cons, runCalls, Call.run, h0, h1]
    · rw [hk1, hx0]
      simp [Function.comp_def]
    · have e1 := hq1 q
      have e0 := hq0 q
      rw [ComplexFlag.countGroupsWith_congr c c0 q groups hf0] at e1
      have hcount : c.countGroupsWith q (g :: groups) =
          (if c.hasMember q g then 1 else 0) + c.countGroupsWith q groups := by
        unfold ComplexFlag.countGroupsWith
        cases hm : c.hasMember q g
        · simp [List.filter_cons, hm]
        · simp only [List.filter_cons, hm, if_true, List.length_cons]
          omega
      rw [hcount]
      push_cast
      have hcast : (((if c.hasMember q g = true then 1 else 0 : Nat) : Int)) =
          (if c.hasMember q g = true then 1 else 0) := by split_ifs <;> rfl
      omega

/-- Lemma: a call sequence in two parts runs the parts one after the other. -/
theorem runCalls_append {V : Type} (calls1 calls2 : List (Call V)) (c c1 : ComplexFlag V)
    (heap heap1 : Heap) (h : runCalls calls1 c heap = some (c1, heap1)) :
    runCalls (calls1 ++ calls2) c heap = runCalls calls2 c1 heap1 := by
  induction calls1 generalizing c heap with
  | nil =>
    simp only [runCalls, Option.some.injEq, Prod.mk.injEq] at h
    rw [List.nil_append, h.1, h.2]
  | cons call calls ih =>
    simp only [runCalls, List.cons_append] at h ⊢
    cases hr : call.run c heap with
    | none => simp [hr] at h
    | some r =>
      simp only [hr] at h ⊢
      exact ih r.1 r.2 h

/-- Lemma: the object `make_unique` constructs has the policy it is given. -/
theorem FlagPtr.make_unique_policy {V : Type} (T : FlagType) (policy : Policy)
    (description : String) :
    (FlagPtr.make_unique T policy description : FlagPtr V).policy = policy := by
  cases T <;> rfl

/-- Lemma: `add<FlagType>` calls under distinct new names complete, append
one child per call and count each call in the raw counter of its policy. -/
theorem runCalls_decls {V : Type} (decls : List FlagDecl) (c : ComplexFlag V) (heap : Heap)
    (hnd : (decls.map (fun d => d.2.1)).Nodup)
    (hnew : ∀ d ∈ decls, c.flags.lookup d.2.1 = none) :
    ∃ c1 : ComplexFlag V, runCalls (decls.map FlagDecl.call) c heap = some (c1, heap) ∧
      c1.flags = c.flags ++
        decls.map (fun d => (d.2.1, FlagPtr.make_unique d.1 d.2.2.1 d.2.2.2)) ∧
      c1.exclusiveFlags = c.exclusiveFlags ∧
      ∀ q : Policy, c1.rawExclusive q = c.rawExclusive q ∧
        c1.rawFlags q = c.rawFlags q + (decls.filter (fun d => decide (d.2.2.1 = q))).length := by
  induction decls generalizing c with
  | nil => exact ⟨c, rfl, by simp, rfl, fun q => ⟨rfl, by simp⟩⟩
  | cons d decls ih =>
    obtain ⟨T, flag, policy, description⟩ := d
    simp only [List.map_cons, List.nodup_cons, List.mem_map, not_exists, not_and] at hnd
    have hl : c.flags.lookup flag = none := hnew _ (List.mem_cons_self _ _)
    have hstep : ∃ c0 : ComplexFlag V,
        (ComplexFlag.addFlag c T flag policy description).1 = c0 ∧
        c0.flags = c.flags ++ [(flag, FlagPtr.make_unique T policy description)] ∧
        c0.exclusiveFlags = c.exclusiveFlags ∧
        ∀ q : Policy, c0.rawExclusive q = c.rawExclusive q ∧
          c0.rawFlags q = c.rawFlags q + (if policy = q then 1 else 0) := by
      refine ⟨_, rfl, ?_, ?_, ?_⟩
      · simp only [ComplexFlag.addFlag, mapInsert, hl]
        split_ifs <;> rfl
      · simp only [ComplexFlag.addFlag, mapInsert, hl]
        split_ifs <;> rfl
      · intro q
        simp only [ComplexFlag.addFlag, mapInsert, hl, FlagPtr.make_unique_policy]
        cases policy <;> cases q <;> simp [ComplexFlag.rawExclusive, ComplexFlag.rawFlags]
    obtain ⟨c0, h0, hf0, hx0, hq0⟩ := hstep
    have hnew0 : ∀ d ∈ decls, c0.flags.lookup d.2.1 = none := by
      intro d1 hd1
      have hne : (d1.2.1 == flag) = false := by
        have : d1.2.1 ≠ flag := fun h => hnd.1 d1 hd1 h
        simpa using this
      rw [hf0, List.lookup_append, hnew d1 (List.mem_cons_of_mem _ hd1)]
      simp [List.lookup_cons, hne]
    obtain ⟨c1, h1, hf1, hx1, hq1⟩ := ih c0 hnd.2 hnew0
    refine ⟨c1, ?_, ?_, hx1.trans hx0, fun q => ?_⟩
    · simp only [runCalls, FlagDecl.call, Call.run, h0, h1]
    · rw [hf1, hf0]
      simp
    · obtain ⟨a1, a2⟩ := hq1 q
      obtain ⟨b1, b2⟩ := hq0 q
      refine ⟨a1.trans b1, ?_⟩
      rw [a2, b2]
      by_cases hpq : policy = q
      · simp only [List.filter_cons, hpq, decide_True, if_true, List.length_cons]
        push_cast
        omega
      · simp [List.filter_cons, hpq]

/-- Lemma: with an empty exclusivity map every child flag is ungrouped. -/
theorem ComplexFlag.countUngroupedFlags_decls {V : Type} (c : ComplexFlag V)
    (decls : List FlagDecl) (q : Policy)
    (hf : c.flags = decls.map (fun d => (d.2.1, FlagPtr.make_unique d.1 d.2.2.1 d.2.2.2)))
    (hx : c.exclusiveFlags = []) :
    c.countUngroupedFlags q = (decls.filter (fun d => decide (d.2.2.1 = q))).length := by
  simp only [ComplexFlag.countUngroupedFlags, ComplexFlag.isExclusive, ComplexFlag.getFlags,
    ComplexFlag.getExclusiveFlags, hf, hx, List.lookup_nil, Option.isSome_none, Bool.not_false,
    Bool.and_true, List.filter_map, List.length_map]
  congr 1
  apply List.filter_congr
  intro d _
  simp [FlagPtr.make_unique_policy]

/-- C8 (amended): on a composite built from a fresh one by `add<FlagType>`
calls under pairwise distinct names, followed by `makeExclusive` calls over
pairwise disjoint lists of distinct child names, the configuration completes,
the children are the declared ones, the members of groups are the listed
names, and an exclusivity group counts as one flag of each policy it holds:
`numberMandatoryFlags()` is the number of MANDATORY children in no group plus
the number of groups with a MANDATORY member, and `numberOptionalFlags()`
exceeds its value on the fresh composite by the number of OPTIONAL children in
no group plus the number of groups with an OPTIONAL member. -/
theorem ComplexFlag.numberFlags_groups {V : Type} (policy : Policy) (description : String)
    (decls : List FlagDecl) (groups : List (List String)) (heap : Heap)
    (hnd : (decls.map (fun d => d.2.1)).Nodup) (hj : groups.flatten.Nodup)
    (hsub : ∀ s ∈ groups.flatten, s ∈ decls.map (fun d => d.2.1)) :
    ∃ (c : ComplexFlag V) (heap1 : Heap),
      runCalls (exclusiveConfig decls groups) (ComplexFlag.new policy description) heap =
        some (c, heap1) ∧
      c.getFlags.map (fun e => (e.1, e.2.policy)) = decls.map (fun d => (d.2.1, d.2.2.1)) ∧
      (∀ s : String, c.isExclusive s = true ↔ s ∈ groups.flatten) ∧
      c.numberMandatoryFlags =
        c.countUngroupedFlags Policy.MANDATORY + c.countGroupsWith Policy.MANDATORY groups ∧
      c.numberOptionalFlags =
        (ComplexFlag.new policy description : ComplexFlag V).numberOptionalFlags +
          c.countUngroupedFlags Policy.OPTIONAL + c.countGroupsWith Policy.OPTIONAL groups := by
  obtain ⟨c1, h1, hf1, hx1, hq1⟩ := runCalls_decls decls
    (ComplexFlag.new policy description : ComplexFlag V) heap hnd (fun _ _ => rfl)
  have hf1a : c1.flags =
      decls.map (fun d => (d.2.1, FlagPtr.make_unique d.1 d.2.2.1 d.2.2.2)) := by
    rw [hf1]
    rfl
  have hx1a : c1.exclusiveFlags = [] := hx1
  have hkeys : c1.flags.map Prod.fst = decls.map (fun d => d.2.1) := by
    rw [hf1a, List.map_map]
    rfl
  have hsub1 : ∀ s ∈ groups.flatten, ∃ p, c1.flags.lookup s = some p := by
    intro s hs
    have hmem : s ∈ c1.flags.map Prod.fst := hkeys ▸ hsub s hs
    obtain ⟨e, he, hes⟩ := List.mem_map.mp hmem
    have hsome : (c1.flags.lookup s).isSome = true :=
      List.lookup_isSome_iff.mpr ⟨e, he, by simp [hes]⟩
    exact Option.isSome_iff_exists.mp hsome
  obtain ⟨c2, heap2, h2, hfr, hk2, hq2⟩ := runCalls_groups groups c1 heap
    (by rw [hkeys]; exact hnd) hj hsub1 (fun s _ => by rw [hx1a]; rfl)
  obtain ⟨_, g2, _, _, g5, g6, _, _⟩ := hfr
  refine ⟨c2, heap2, ?_, ?_, ?_, ?_, ?_⟩
  · unfold exclusiveConfig
    rw [runCalls_append _ _ _ c1 heap heap h1]
    exact h2
  · simp only [ComplexFlag.getFlags, g2, hf1a, List.map_map]
    apply List.map_congr_left
    intro d _
    simp [FlagPtr.make_unique_policy]
  · intro s
    have hiff : (c2.exclusiveFlags.lookup s).isSome = true ↔ s ∈ c2.exclusiveFlags.map Prod.fst := by
      rw [List.lookup_isSome_iff, List.mem_map]
      constructor
      · rintro ⟨e, he, hes⟩
        exact ⟨e, he, by simpa using Eq.symm (by simpa using hes)⟩
      · rintro ⟨e, he, hes⟩
        exact ⟨e, he, by simp [hes]⟩
    simp only [ComplexFlag.isExclusive, ComplexFlag.getExclusiveFlags, hiff, hk2, hx1a,
      List.map_nil, List.nil_append]
  · have e2 := hq2 Policy.MANDATORY
    obtain ⟨a1, a2⟩ := hq1 Policy.MANDATORY
    rw [ComplexFlag.countUngroupedFlags_decls c1 decls Policy.MANDATORY hf1a hx1a,
      ← ComplexFlag.countGroupsWith_congr c1 c2 Policy.MANDATORY groups g2] at e2
    simp only [ComplexFlag.rawExclusive, ComplexFlag.rawFlags, ComplexFlag.new] at a1 a2 e2
    simp only [ComplexFlag.numberMandatoryFlags, g5]
    omega
  · have e2 := hq2 Policy.OPTIONAL
    obtain ⟨a1, a2⟩ := hq1 Policy.OPTIONAL
    rw [ComplexFlag.countUngroupedFlags_decls c1 decls Policy.OPTIONAL hf1a hx1a,
      ← ComplexFlag.countGroupsWith_congr c1 c2 Policy.OPTIONAL groups g2] at e2
    simp only [ComplexFlag.rawExclusive, ComplexFlag.rawFlags, ComplexFlag.new] at a1 a2 e2
    simp only [ComplexFlag.numberOptionalFlags, g6, ComplexFlag.new]
    omega

/-- Witness of C8 (amended): the `--speed` example, one group of three
MANDATORY flags. -/
theorem ComplexFlag.numberFlags_groups_witness :
    ∃ (c : ComplexFlag Nat) (heap1 : Heap),
      runCalls (exclusiveConfig speedDecls [["slow", "medium", "fast"]])
        (ComplexFlag.new Policy.MANDATORY "Specify the speed.") [] = some (c, heap1) ∧
      c.getFlags.map (fun e => (e.1, e.2.policy)) =
        speedDecls.map (fun d => (d.2.1, d.2.2.1)) ∧
      (∀ s : String, c.isExclusive s = true ↔ s ∈ [["slow", "medium", "fast"]].flatten) ∧
      c.numberMandatoryFlags =
        c.countUngroupedFlags Policy.MANDATORY +
          c.countGroupsWith Policy.MANDATORY [["slow", "medium", "fast"]] ∧
      c.numberOptionalFlags =
        (ComplexFlag.new Policy.MANDATORY "Specify the speed." : ComplexFlag Nat).numberOptionalFlags +
          c.countUngroupedFlags Policy.OPTIONAL +
            c.countGroupsWith Policy.OPTIONAL [["slow", "medium", "fast"]] :=
  ComplexFlag.numberFlags_groups Policy.MANDATORY "Specify the speed." speedDecls
    [["slow", "medium", "fast"]] [] (by decide) (by decide) (by decide)

/-! ## Maps: insertion and lookup -/

/-- Lemma: a key has no entry exactly when it is not among the keys. -/
theorem lookup_eq_none_iff_keys {β : Type} (l : List (String × β)) (k : String) :
    l.lookup k = none ↔ k ∉ l.map Prod.fst := by
  rw [List.lookup_eq_none_iff]
  simp only [List.mem_map, not_exists, not_and, bne_iff_ne, ne_eq]
  constructor
  · intro h e he hk
    exact h e he hk.symm
  · intro h e he hk
    exact h e he hk.symm

/-- Lemma: a key among the keys has an entry. -/
theorem lookup_isSome_of_keys {β : Type} (l : List (String × β)) (k : String)
    (h : k ∈ l.map Prod.fst) : ∃ v, l.lookup k = some v := by
  cases hl : l.lookup k with
  | none => exact absurd h ((lookup_eq_none_iff_keys l k).mp hl)
  | some v => exact ⟨v, rfl⟩

/-- Lemma: the value found under a key is an entry of the map. -/
theorem mem_of_lookup {β : Type} (l : List (String × β)) (k : String) (v : β)
    (h : l.lookup k = some v) : (k, v) ∈ l := by
  obtain ⟨l1, l2, hl, _⟩ := List.lookup_eq_some_iff.mp h
  rw [hl]
  simp

/-- Lemma: an entry of a map with unique keys is what lookup finds. -/
theorem lookup_of_mem_nodup {β : Type} (l : List (String × β)) (k : String) (v : β)
    (hn : (l.map Prod.fst).Nodup) (h : (k, v) ∈ l) : l.lookup k = some v := by
  induction l with
  | nil => simp at h
  | cons e es ih =>
    obtain ⟨k1, v1⟩ := e
    simp only [List.map_cons, List.nodup_cons, List.mem_map, not_exists, not_and] at hn
    rcases List.mem_cons.mp h with h1 | h1
    · simp only [Prod.mk.injEq] at h1
      rw [h1.1, h1.2]
      exact List.lookup_cons_self
    · have hne : (k == k1) = false := by
        have : k ≠ k1 := fun hk => hn.1 (k, v) h1 hk
        simpa using this
      rw [List.lookup_cons, hne]
      exact ih hn.2 h1

/-- Lemma: `insert` keeps every present entry and adds the pair under a new key. -/
theorem mapInsert_lookup {β : Type} (m : List (String × β)) (k k1 : String) (v : β) :
    (mapInsert m k v).1.lookup k1 =
      match m.lookup k1 with
      | some x => some x
      | none => if k1 = k then some v else none := by
  unfold mapInsert
  cases hk : m.lookup k with
  | some x =>
    simp only
    cases hk1 : m.lookup k1 with
    | some y => rfl
    | none =>
      have : k1 ≠ k := fun h => by rw [h, hk] at hk1; exact absurd hk1 (by simp)
      simp [this]
  | none =>
    simp only [List.lookup_append]
    cases hk1 : m.lookup k1 with
    | some y => rfl
    | none =>
      by_cases h : k1 = k
      · simp [h]
      · have hne : (k1 == k) = false := by simpa using h
        simp [List.lookup_cons, hne, h]

/-- Lemma: `insert` adds the key behind the others when it is new and
leaves the keys alone when it is present. -/
theorem mapInsert_keys {β : Type} (m : List (String × β)) (k : String) (v : β) :
    (mapInsert m k v).1.map Prod.fst =
      if k ∈ m.map Prod.fst then m.map Prod.fst else m.map Prod.fst ++ [k] := by
  unfold mapInsert
  cases hk : m.lookup k with
  | some x =>
    have : k ∈ m.map Prod.fst := List.mem_map.mpr ⟨(k, x), mem_of_lookup m k x hk, rfl⟩
    simp [this]
  | none =>
    have : k ∉ m.map Prod.fst := (lookup_eq_none_iff_keys m k).mp hk
    simp [this]

/-- Lemma: `insert` keeps the keys of a map unique. -/
theorem mapInsert_nodup {β : Type} (m : List (String × β)) (k : String) (v : β)
    (hn : (m.map Prod.fst).Nodup) : ((mapInsert m k v).1.map Prod.fst).Nodup := by
  rw [mapInsert_keys]
  split_ifs with h
  · exact hn
  · exact List.nodup_append.mpr ⟨hn, List.nodup_singleton k, by simpa using h⟩

/-! ## Adding child flags -/

/-- Lemma: what `add<FlagType>` does to each member. -/
theorem ComplexFlag.addFlag_members {V : Type} (c : ComplexFlag V) (T : FlagType)
    (flag : String) (policy : Policy) (description : String) :
    (ComplexFlag.addFlag c T flag policy description).1.flags =
      (mapInsert c.flags flag (FlagPtr.make_unique T policy description)).1 ∧
    (ComplexFlag.addFlag c T flag policy description).2 =
      (mapInsert c.flags flag (FlagPtr.make_unique T policy description)).2 ∧
    (ComplexFlag.addFlag c T flag policy description).1.flagInsertionOrder =
      c.flagInsertionOrder ++ [flag] ∧
    (ComplexFlag.addFlag c T flag policy description).1.exclusiveFlags = c.exclusiveFlags ∧
    (ComplexFlag.addFlag c T flag policy description).1.args = c.args := by
  by_cases hp : (mapInsert c.flags flag
      (FlagPtr.make_unique T policy description)).2.policy = Policy.MANDATORY <;>
    simp [ComplexFlag.addFlag, hp]

/-- Lemma: one configuration call appends the flag name it registers, if any,
to the insertion order. -/
theorem Call.run_order {V : Type} (call : Call V) (c : ComplexFlag V) (heap : Heap)
    (r : ComplexFlag V × Heap) (h : call.run c heap = some r) :
    r.1.flagInsertionOrder = c.flagInsertionOrder ++ (call.flagName).toList := by
  cases call with
  | addFlag T flag policy description =>
    simp only [Call.run, Option.some.injEq] at h
    subst h
    exact (ComplexFlag.addFlag_members c T flag policy description).2.2.1
  | addArg init name policy description convert =>
    simp only [Call.run, Option.some.injEq] at h
    subst h
    simp only [ComplexFlag.addArg, Call.flagName, Option.toList, List.append_nil]
    split_ifs <;> rfl
  | makeExclusive strings =>
    simp only [Call.run] at h
    cases hm : ComplexFlag.makeExclusive c strings heap with
    | none => simp [hm] at h
    | some r0 =>
      simp only [hm, Option.some.injEq] at h
      subst h
      simp only [Call.flagName, Option.toList, List.append_nil]
      exact (ComplexFlag.makeExclusive_frame c strings heap r0 hm).2.2.1

/-- Lemma: one configuration call adds the flag name it registers, if any and
if new, to the keys of the flag map. -/
theorem Call.run_keys {V : Type} (call : Call V) (c : ComplexFlag V) (heap : Heap)
    (r : ComplexFlag V × Heap) (h : call.run c heap = some r) :
    ((c.flags.map Prod.fst).Nodup → (r.1.flags.map Prod.fst).Nodup) ∧
    ∀ n : String, n ∈ r.1.flags.map Prod.fst ↔
      n ∈ c.flags.map Prod.fst ∨ n ∈ (call.flagName).toList := by
  cases call with
  | addFlag T flag policy description =>
    simp only [Call.run, Option.some.injEq] at h
    subst h
    rw [(ComplexFlag.addFlag_members c T flag policy description).1]
    refine ⟨mapInsert_nodup _ _ _, fun n => ?_⟩
    rw [mapInsert_keys]
    simp only [Call.flagName, Option.toList, List.mem_singleton]
    split_ifs with hk
    · constructor
      · exact Or.inl
      · rintro (h1 | h1)
        · exact h1
        · exact h1 ▸ hk
    · simp
  | addArg init name policy description convert =>
    simp only [Call.run, Option.some.injEq] at h
    subst h
    have hf : (ComplexFlag.addArg c init name policy description convert).1.flags = c.flags := by
      simp only [ComplexFlag.addArg]
      split_ifs <;> rfl
    rw [hf]
    simp [Call.flagName]
  | makeExclusive strings =>
    simp only [Call.run] at h
    cases hm : ComplexFlag.makeExclusive c strings heap with
    | none => simp [hm] at h
    | some r0 =>
      simp only [hm, Option.some.injEq] at h
      subst h
      rw [(ComplexFlag.makeExclusive_frame c strings heap r0 hm).2.1]
      simp [Call.flagName]

/-- Lemma: a call sequence appends the registered flag names to the insertion
order, keeps the keys unique and adds exactly the registered names as keys. -/
theorem runCalls_flags {V : Type} (calls : List (Call V)) (c c1 : ComplexFlag V)
    (heap heap1 : Heap) (h : runCalls calls c heap = some (c1, heap1)) :
    c1.flagInsertionOrder = c.flagInsertionOrder ++ declaredFlagNames calls ∧
    ((c.flags.map Prod.fst).Nodup → (c1.flags.map Prod.fst).Nodup) ∧
    ∀ n : String, n ∈ c1.flags.map Prod.fst ↔
      n ∈ c.flags.map Prod.fst ∨ n ∈ declaredFlagNames calls := by
  induction calls generalizing c heap with
  | nil =>
    simp only [runCalls, Option.some.injEq, Prod.mk.injEq] at h
    rw [← h.1]
    simp [declaredFlagNames]
  | cons call calls ih =>
    simp only [runCalls] at h
    cases hr : call.run c heap with
    | none => simp [hr] at h
    | some r =>
      simp only [hr] at h
      obtain ⟨i1, i2, i3⟩ := ih r.1 r.2 h
      obtain ⟨k1, k2⟩ := Call.run_keys call c heap r hr
      have ho := Call.run_order call c heap r hr
      have hnames : declaredFlagNames (call :: calls) =
          (call.flagName).toList ++ declaredFlagNames calls := by
        cases hd : call.flagName <;> simp [declaredFlagNames, List.filterMap_cons, hd]
      refine ⟨?_, fun hn => i2 (k1 hn), fun n => ?_⟩
      · rw [i1, ho, hnames, List.append_assoc]
      · rw [i3 n, k2 n, hnames, List.mem_append, or_assoc]

/-- C11: `add<FlagType>` calls under pairwise distinct names that are not yet
keys complete; afterwards `getFlags()` maps each name to the flag its call
constructed (given policy and description, `parsed()` false), every earlier
mapping is unchanged, and `getFlagInsertionOrder()` is the previous order
followed by the names in call order; the reference a call under a new name
returns is the flag stored under that name. -/
theorem ComplexFlag.addFlag_distinct {V : Type} (decls : List FlagDecl) (c : ComplexFlag V)
    (heap : Heap) (hnd : (decls.map (fun d => d.2.1)).Nodup)
    (hnew : ∀ d ∈ decls, c.getFlags.lookup d.2.1 = none) :
    ∃ c1 : ComplexFlag V, runCalls (decls.map FlagDecl.call) c heap = some (c1, heap) ∧
      (∀ d ∈ decls, ∃ p : FlagPtr V, c1.getFlags.lookup d.2.1 = some p ∧
        p = FlagPtr.make_unique d.1 d.2.2.1 d.2.2.2 ∧ p.policy = d.2.2.1 ∧
        p.description = d.2.2.2 ∧ p.parsed = false) ∧
      (∀ (n : String) (p : FlagPtr V), c.getFlags.lookup n = some p →
        c1.getFlags.lookup n = some p) ∧
      c1.getFlagInsertionOrder = c.getFlagInsertionOrder ++ decls.map (fun d => d.2.1) ∧
      (∀ (c0 : ComplexFlag V) (T : FlagType) (flag : String) (policy : Policy)
        (description : String), c0.getFlags.lookup flag = none →
        (ComplexFlag.addFlag c0 T flag policy description).2 =
          FlagPtr.make_unique T policy description ∧
        (ComplexFlag.addFlag c0 T flag policy description).1.getFlags.lookup flag =
          some (ComplexFlag.addFlag c0 T flag policy description).2) := by
  obtain ⟨c1, h1, hf1, _, _⟩ := runCalls_decls decls c heap hnd hnew
  have hord := (runCalls_flags _ c c1 heap heap h1).1
  refine ⟨c1, h1, ?_, ?_, ?_, ?_⟩
  · intro d hd
    refine ⟨FlagPtr.make_unique d.1 d.2.2.1 d.2.2.2, ?_, rfl,
      FlagPtr.make_unique_policy _ _ _, ?_, ?_⟩
    · have hmem : (d.2.1, (FlagPtr.make_unique d.1 d.2.2.1 d.2.2.2 : FlagPtr V)) ∈
          decls.map (fun d => (d.2.1, (FlagPtr.make_unique d.1 d.2.2.1 d.2.2.2 : FlagPtr V))) :=
        List.mem_map.mpr ⟨d, hd, rfl⟩
      have hkeys : ((decls.map (fun d =>
          (d.2.1, (FlagPtr.make_unique d.1 d.2.2.1 d.2.2.2 : FlagPtr V)))).map Prod.fst).Nodup := by
        rw [List.map_map]
        exact hnd
      have hc : c.flags.lookup d.2.1 = none := hnew d hd
      show c1.flags.lookup d.2.1 = _
      rw [hf1, List.lookup_append, hc]
      exact lookup_of_mem_nodup _ _ _ hkeys hmem
    · cases d.1 <;> rfl
    · cases d.1 <;> rfl
  · intro n p hp
    have hc : c.flags.lookup n = some p := hp
    show c1.flags.lookup n = _
    rw [hf1, List.lookup_append, hc]
    rfl
  · show c1.flagInsertionOrder = c.flagInsertionOrder ++ _
    rw [hord]
    congr 1
    simp only [declaredFlagNames, List.filterMap_map]
    rw [← List.filterMap_eq_map]
    rfl
  · intro c0 T flag policy description h0
    have hc : c0.flags.lookup flag = none := h0
    obtain ⟨m1, m2, _, _, _⟩ := ComplexFlag.addFlag_members c0 T flag policy description
    refine ⟨?_, ?_⟩
    · rw [m2]
      simp only [mapInsert, hc]
    · show (ComplexFlag.addFlag c0 T flag policy description).1.flags.lookup flag = _
      rw [m1, m2, mapInsert_lookup]
      simp only [mapInsert, hc, if_true]

/-- Witness of C11: five declarations with mixed classes and policies on a
fresh composite. -/
theorem ComplexFlag.addFlag_distinct_witness :
    ∃ c1 : ComplexFlag Nat, runCalls (mixedDecls.map FlagDecl.call)
        (ComplexFlag.new Policy.MANDATORY "") [] = some (c1, []) ∧
      c1.getFlagInsertionOrder =
        (ComplexFlag.new Policy.MANDATORY "" : ComplexFlag Nat).getFlagInsertionOrder ++
          mixedDecls.map (fun d => d.2.1) :=
  let ⟨c1, h1, _, _, h4, _⟩ := ComplexFlag.addFlag_distinct mixedDecls
    (ComplexFlag.new Policy.MANDATORY "" : ComplexFlag Nat) [] (by decide) (fun _ _ => rfl)
  ⟨c1, h1, h4⟩

/-- Counterexample to C17 as stated: after `add<Flag>("a", ...)` twice on a
fresh composite `getFlags()` has the one key `a`, and
`getFlagInsertionOrder()` lists `a` twice. -/
theorem ComplexFlag.flagInsertionOrder_duplicate_counterexample :
    (runCalls [Call.addFlag FlagType.Flag "a" Policy.MANDATORY "",
        Call.addFlag FlagType.Flag "a" Policy.OPTIONAL ""]
      (ComplexFlag.new Policy.MANDATORY "" : ComplexFlag Nat) []).map
        (fun r => (r.1.getFlags.map Prod.fst, r.1.getFlagInsertionOrder,
          r.1.getFlagInsertionOrder.count "a")) =
      some (["a"], ["a", "a"], 2) := by
  decide

/-- C17 (amended): on every composite configured from a fresh one, the keys
of `getFlags()` are unique, every key occurs in `getFlagInsertionOrder()` and
every entry of the order is a key; the order has one entry per `add<FlagType>`
call, in call order, so it is at least as long as the map, and every key
occurs exactly once in it (the two sizes are equal) exactly when the added
names are pairwise distinct. -/
theorem ComplexFlag.flagInsertionOrder_keys {V : Type} (calls : List (Call V)) (policy : Policy)
    (description : String) (heap heap1 : Heap) (c1 : ComplexFlag V)
    (h : runCalls calls (ComplexFlag.new policy description) heap = some (c1, heap1)) :
    c1.keysInOrder ∧
    c1.getFlagInsertionOrder = declaredFlagNames calls ∧
    (c1.getFlags.map Prod.fst).length ≤ c1.getFlagInsertionOrder.length ∧
    ((c1.getFlags.map Prod.fst).length = c1.getFlagInsertionOrder.length ↔
      (declaredFlagNames calls).Nodup) ∧
    ((declaredFlagNames calls).Nodup →
      ∀ n ∈ c1.getFlags.map Prod.fst, c1.getFlagInsertionOrder.count n = 1) := by
  obtain ⟨h1, h2, h3⟩ := runCalls_flags calls _ c1 heap heap1 h
  have hord : c1.flagInsertionOrder = declaredFlagNames calls := by
    rw [h1]
    rfl
  have hnd : (c1.flags.map Prod.fst).Nodup := h2 List.nodup_nil
  have hmem : ∀ n : String, n ∈ c1.flags.map Prod.fst ↔ n ∈ c1.flagInsertionOrder := by
    intro n
    rw [h3 n, hord]
    simp [ComplexFlag.new]
  have hsub : (c1.flags.map Prod.fst).Subperm c1.flagInsertionOrder :=
    List.subperm_of_subset hnd (fun n hn => (hmem n).mp hn)
  refine ⟨⟨hnd, hmem⟩, hord, hsub.length_le, ?_, ?_⟩
  · show (c1.flags.map Prod.fst).length = c1.flagInsertionOrder.length ↔ _
    rw [← hord]
    constructor
    · intro hlen
      exact (List.Perm.nodup_iff (hsub.perm_of_length_le (le_of_eq hlen.symm))).mp hnd
    · intro hno
      exact ((List.perm_ext_iff_of_nodup hnd hno).mpr hmem).length_eq
  · intro hno n hn
    show c1.flagInsertionOrder.count n = 1
    rw [hord]
    exact List.count_eq_one_of_mem hno ((hord ▸ (hmem n).mp hn))

/-- Witness of C17 (amended): the example call sequence, three distinct flags. -/
theorem ComplexFlag.flagInsertionOrder_keys_witness :
    exampleComposite.keysInOrder ∧
    exampleComposite.getFlagInsertionOrder = declaredFlagNames exampleCalls :=
  let h := ComplexFlag.flagInsertionOrder_keys exampleCalls Policy.MANDATORY "" [] [false]
    exampleComposite rfl
  ⟨h.1, h.2.1⟩

/-- C20: a second `add<FlagType>` under a name that already has the child flag
`f` leaves `getFlags()` as it was, returns `f`, appends one more entry for the
name to `getFlagInsertionOrder()`, and raises by one the flag counter of the
policy of `f`, not of the policy given to the call; the other flag counter
stays. -/
theorem ComplexFlag.addFlag_present {V : Type} (c : ComplexFlag V) (n : String) (f : FlagPtr V)
    (T : FlagType) (policy : Policy) (description : String)
    (hf : c.getFlags.lookup n = some f) :
    (ComplexFlag.addFlag c T n policy description).1.getFlags = c.getFlags ∧
    (ComplexFlag.addFlag c T n policy description).2 = f ∧
    (ComplexFlag.addFlag c T n policy description).1.getFlagInsertionOrder =
      c.getFlagInsertionOrder ++ [n] ∧
    (f.policy = Policy.MANDATORY →
      (ComplexFlag.addFlag c T n policy description).1.numberMandatoryFlags =
        c.numberMandatoryFlags + 1 ∧
      (ComplexFlag.addFlag c T n policy description).1.numberOptionalFlags =
        c.numberOptionalFlags) ∧
    (f.policy = Policy.OPTIONAL →
      (ComplexFlag.addFlag c T n policy description).1.numberOptionalFlags =
        c.numberOptionalFlags + 1 ∧
      (ComplexFlag.addFlag c T n policy description).1.numberMandatoryFlags =
        c.numberMandatoryFlags) := by
  have hc : c.flags.lookup n = some f := hf
  obtain ⟨m1, m2, m3, _, _⟩ := ComplexFlag.addFlag_members c T n policy description
  have hins : mapInsert c.flags n (FlagPtr.make_unique T policy description) = (c.flags, f) := by
    simp only [mapInsert, hc]
  refine ⟨?_, ?_, m3, ?_, ?_⟩
  · show (ComplexFlag.addFlag c T n policy description).1.flags = c.flags
    rw [m1, hins]
  · rw [m2, hins]
  · intro hp
    simp only [ComplexFlag.addFlag, hins, hp, if_true, ComplexFlag.numberMandatoryFlags,
      ComplexFlag.numberOptionalFlags]
    constructor
    · omega
    · trivial
  · intro hp
    have hp1 : ¬ f.policy = Policy.MANDATORY := by rw [hp]; decide
    simp only [ComplexFlag.addFlag, hins, hp1, if_false, ComplexFlag.numberMandatoryFlags,
      ComplexFlag.numberOptionalFlags]
    constructor
    · omega
    · trivial

/-- Witness of C20: `a` is added as a MANDATORY switch flag and then again as
an OPTIONAL composite. -/
theorem ComplexFlag.addFlag_present_witness :
    (ComplexFlag.addFlag onceAdded FlagType.ComplexFlag "a" Policy.OPTIONAL "other").1.getFlags =
      onceAdded.getFlags ∧
    (ComplexFlag.addFlag onceAdded FlagType.ComplexFlag "a" Policy.OPTIONAL "other").2 =
      FlagPtr.flag (Flag.new Policy.MANDATORY "first") :=
  let h := ComplexFlag.addFlag_present onceAdded "a" (FlagPtr.flag (Flag.new Policy.MANDATORY "first"))
    FlagType.ComplexFlag Policy.OPTIONAL "other" rfl
  ⟨h.1, h.2.1⟩

/-! ## Exclusivity groups -/

/-- Lemma: `addExclusive` is undefined on a name that is no child flag; on a
child flag it completes, does `insert` on the exclusivity map and raises the
exclusivity counter of the flag's policy by one. -/
theorem ComplexFlag.addExclusive_spec {V : Type} (c : ComplexFlag V) (s : String)
    (st : SharedPtr) :
    (c.flags.lookup s = none → ComplexFlag.addExclusive c s st = none) ∧
    (∀ p : FlagPtr V, c.flags.lookup s = some p →
      ∃ c1 : ComplexFlag V, ComplexFlag.addExclusive c s st = some c1 ∧
        c1.exclusiveFlags = (mapInsert c.exclusiveFlags s st).1 ∧
        ∀ q : Policy, c1.rawExclusive q = c.rawExclusive q + (if p.policy = q then 1 else 0)) := by
  refine ⟨fun h => by simp [ComplexFlag.addExclusive, h], fun p hp => ?_⟩
  by_cases hpol : p.policy = Policy.MANDATORY
  · refine ⟨_, by simp only [ComplexFlag.addExclusive, hp, hpol, if_true]; rfl, rfl, fun q => ?_⟩
    cases q <;> simp [ComplexFlag.rawExclusive, hpol]
  · have hp2 : p.policy = Policy.OPTIONAL := by
      cases h : p.policy
      · exact absurd h hpol
      · rfl
    refine ⟨_, by simp only [ComplexFlag.addExclusive, hp, hpol, if_false]; rfl, rfl, fun q => ?_⟩
    cases q <;> simp [ComplexFlag.rawExclusive, hp2]

/-- Lemma: `countListed` reads only the flag map. -/
theorem ComplexFlag.countListed_congr {V : Type} (c c1 : ComplexFlag V) (q : Policy)
    (g : List String) (hf : c1.flags = c.flags) : c1.countListed q g = c.countListed q g := by
  simp only [ComplexFlag.countListed, ComplexFlag.getFlags, hf]

/-- Lemma: when the pack expansion completes, every listed name is a child
flag, a name keeps the entry it had and a listed name without entry gets the
new state, the exclusivity counter of each policy is raised by the number of
listed flags of that policy, and the keys stay unique. -/
theorem ComplexFlag.unpack_spec {V : Type} (st : SharedPtr) (g : List String)
    (c c1 : ComplexFlag V) (h : ComplexFlag.unpack st g c = some c1) :
    (∀ s ∈ g, ∃ p, c.flags.lookup s = some p) ∧
    (∀ k : String, c1.exclusiveFlags.lookup k =
      match c.exclusiveFlags.lookup k with
      | some x => some x
      | none => if k ∈ g then some st else none) ∧
    (∀ q : Policy, c1.rawExclusive q = c.rawExclusive q + c.countListed q g) ∧
    ((c.exclusiveFlags.map Prod.fst).Nodup → (c1.exclusiveFlags.map Prod.fst).Nodup) := by
  induction g generalizing c with
  | nil =>
    simp only [ComplexFlag.unpack, Option.some.injEq] at h
    subst h
    refine ⟨by simp, fun k => ?_, fun q => by simp [ComplexFlag.countListed], id⟩
    cases c.exclusiveFlags.lookup k <;> simp
  | cons s g ih =>
    simp only [ComplexFlag.unpack] at h
    cases hl : c.flags.lookup s with
    | none => simp [(ComplexFlag.addExclusive_spec c s st).1 hl] at h
    | some p =>
      obtain ⟨c0, h0, hx0, hq0⟩ := (ComplexFlag.addExclusive_spec c s st).2 p hl
      simp only [h0] at h
      have hf0 : c0.flags = c.flags := (ComplexFlag.addExclusive_frame c c0 s st h0).2.1
      obtain ⟨i1, i2, i3, i4⟩ := ih c0 h
      refine ⟨?_, fun k => ?_, fun q => ?_, fun hn => i4 (hx0 ▸ mapInsert_nodup _ _ _ hn)⟩
      · intro s1 hs1
        rcases List.mem_cons.mp hs1 with h1 | h1
        · exact ⟨p, h1 ▸ hl⟩
        · exact hf0 ▸ i1 s1 h1
      · rw [i2 k, hx0, mapInsert_lookup]
        cases c.exclusiveFlags.lookup k with
        | some x => rfl
        | none =>
          by_cases hk : k = s
          · simp [hk]
          · simp [hk]
      · rw [i3 q, hq0 q, ComplexFlag.countListed_congr c c0 q g hf0]
        have hcount : c.countListed q (s :: g) =
            (if p.policy = q then 1 else 0) + c.countListed q g := by
          by_cases hpq : p.policy = q
          · simp only [ComplexFlag.countListed, ComplexFlag.getFlags, List.filter_cons, hl, hpq,
              decide_True, if_true, List.length_cons]
            omega
          · simp [ComplexFlag.countListed, ComplexFlag.getFlags, List.filter_cons, hl, hpq]
        rw [hcount]
        split_ifs <;> push_cast <;> omega

/-- Lemma: the pack expansion over child flags completes. -/
theorem ComplexFlag.unpack_complete {V : Type} (st : SharedPtr) (g : List String)
    (c : ComplexFlag V) (hchild : ∀ s ∈ g, ∃ p, c.flags.lookup s = some p) :
    ∃ c1 : ComplexFlag V, ComplexFlag.unpack st g c = some c1 := by
  induction g generalizing c with
  | nil => exact ⟨c, rfl⟩
  | cons s g ih =>
    obtain ⟨p, hl⟩ := hchild s (List.mem_cons_self s g)
    obtain ⟨c0, h0, _, _⟩ := (ComplexFlag.addExclusive_spec c s st).2 p hl
    have hf0 : c0.flags = c.flags := (ComplexFlag.addExclusive_frame c c0 s st h0).2.1
    obtain ⟨c1, h1⟩ := ih c0 (fun s1 hs1 => hf0 ▸ hchild s1 (List.mem_cons_of_mem s hs1))
    exact ⟨c1, by simp only [ComplexFlag.unpack, h0, h1]⟩

/-- Lemma: when `makeExclusive` completes, it returns a new state that is
false, every listed name is a child flag, a name keeps the entry it had and a
listed name without entry gets the new state, the exclusivity counter of each
policy is raised by one less than the number of listed flags of that policy
(by nothing when there is none), and the keys stay unique. -/
theorem ComplexFlag.makeExclusive_spec {V : Type} (c : ComplexFlag V) (g : List String)
    (heap : Heap) (r : SharedPtr × ComplexFlag V × Heap)
    (h : ComplexFlag.makeExclusive c g heap = some r) :
    r.1 = heap.length ∧ r.2.2 = heap ++ [false] ∧
    (∀ s ∈ g, ∃ p, c.flags.lookup s = some p) ∧
    (∀ k : String, r.2.1.exclusiveFlags.lookup k =
      match c.exclusiveFlags.lookup k with
      | some x => some x
      | none => if k ∈ g then some heap.length else none) ∧
    (∀ q : Policy, r.2.1.rawExclusive q = c.rawExclusive q + ((c.countListed q g - 1 : Nat) : Int)) ∧
    ((c.exclusiveFlags.map Prod.fst).Nodup → (r.2.1.exclusiveFlags.map Prod.fst).Nodup) := by
  unfold ComplexFlag.makeExclusive at h
  simp only at h
  cases hu : ComplexFlag.unpack heap.length g c with
  | none => simp [hu] at h
  | some c1 =>
    simp only [hu, Option.some.injEq] at h
    subst h
    obtain ⟨u1, u2, u3, u4⟩ := ComplexFlag.unpack_spec heap.length g c c1 hu
    have hM := u3 Policy.MANDATORY
    have hO := u3 Policy.OPTIONAL
    simp only [ComplexFlag.rawExclusive] at hM hO
    refine ⟨rfl, rfl, u1, ?_, ?_, ?_⟩
    · intro k
      rw [← u2 k]
      simp only
      split_ifs <;> rfl
    · intro q
      by_cases h1 : c1._numberExclusiveMandatoryFlags = c._numberExclusiveMandatoryFlags <;>
        by_cases h2 : c1._numberExclusiveOptionalFlags = c._numberExclusiveOptionalFlags <;>
        cases q <;>
        simp only [ne_eq, h1, h2, not_true_eq_false, not_false_eq_true, if_true, if_false,
          ComplexFlag.rawExclusive] <;>
        omega
    · intro hn
      have := u4 hn
      simp only
      split_ifs <;> exact this

/-- Lemma: `makeExclusive` over child flags completes. -/
theorem ComplexFlag.makeExclusive_complete {V : Type} (c : ComplexFlag V) (g : List String)
    (heap : Heap) (hchild : ∀ s ∈ g, ∃ p, c.flags.lookup s = some p) :
    ∃ c1 : ComplexFlag V,
      ComplexFlag.makeExclusive c g heap = some (heap.length, c1, heap ++ [false]) := by
  obtain ⟨c1, h1⟩ := ComplexFlag.unpack_complete heap.length g c hchild
  unfold ComplexFlag.makeExclusive
  simp only [h1]
  exact ⟨_, rfl⟩

/-- Lemma: `makeExclusive` is undefined when a listed name is no child flag. -/
theorem ComplexFlag.makeExclusive_undefined {V : Type} (c : ComplexFlag V) (g : List String)
    (heap : Heap) (s : String) (hs : s ∈ g) (hl : c.flags.lookup s = none) :
    ComplexFlag.makeExclusive c g heap = none := by
  cases hm : ComplexFlag.makeExclusive c g heap with
  | none => rfl
  | some r =>
    obtain ⟨p, hp⟩ := (ComplexFlag.makeExclusive_spec c g heap r hm).2.2.1 s hs
    rw [hl] at hp
    exact absurd hp (by simp)

/-- C12: `makeExclusive` over names that are child flags and members of no
group completes and returns a new state whose value is false; afterwards
`getExclusiveFlags()` maps every listed name to that state, so what is written
through one listed member is read through every listed member; the entries of
the names not listed, the flag map and the value-args are unchanged. -/
theorem ComplexFlag.makeExclusive_shared {V : Type} (c : ComplexFlag V) (g : List String)
    (heap : Heap) (hchild : ∀ s ∈ g, ∃ p, c.getFlags.lookup s = some p)
    (hnew : ∀ s ∈ g, c.getExclusiveFlags.lookup s = none) :
    ∃ c1 : ComplexFlag V,
      ComplexFlag.makeExclusive c g heap = some (heap.length, c1, heap ++ [false]) ∧
      (heap ++ [false])[heap.length]? = some false ∧
      (∀ s ∈ g, c1.getExclusiveFlags.lookup s = some heap.length) ∧
      (∀ s ∈ g, c1.readState (heap ++ [false]) s = some false) ∧
      (∀ s1 ∈ g, ∀ s2 ∈ g, ∀ b : Bool,
        c1.readState (c1.writeState (heap ++ [false]) s1 b) s2 = some b) ∧
      (∀ k : String, k ∉ g → c1.getExclusiveFlags.lookup k = c.getExclusiveFlags.lookup k) ∧
      c1.getFlags = c.getFlags ∧ c1.getArgs = c.getArgs := by
  obtain ⟨c1, h1⟩ := ComplexFlag.makeExclusive_complete c g heap hchild
  obtain ⟨_, _, _, e4, _, _⟩ := ComplexFlag.makeExclusive_spec c g heap _ h1
  have hfr := ComplexFlag.makeExclusive_frame c g heap _ h1
  have hmem : ∀ s ∈ g, c1.exclusiveFlags.lookup s = some heap.length := by
    intro s hs
    have hx : c.exclusiveFlags.lookup s = none := hnew s hs
    have := e4 s
    simp only [hx, hs, if_true] at this
    exact this
  have hcell : (heap ++ [false])[heap.length]? = some false := by simp
  refine ⟨c1, h1, hcell, hmem, ?_, ?_, ?_, hfr.2.1, hfr.2.2.2.1⟩
  · intro s hs
    simp only [ComplexFlag.readState, ComplexFlag.getExclusiveFlags, hmem s hs]
    exact hcell
  · intro s1 hs1 s2 hs2 b
    simp only [ComplexFlag.readState, ComplexFlag.writeState, ComplexFlag.getExclusiveFlags,
      hmem s1 hs1, hmem s2 hs2]
    simp
  · intro k hk
    have := e4 k
    simp only [hk, if_false] at this
    show c1.exclusiveFlags.lookup k = c.exclusiveFlags.lookup k
    rw [this]
    cases c.exclusiveFlags.lookup k <;> rfl

/-- Witness of C12: `makeExclusive("a", "b", "d")` on the mixed example. -/
theorem ComplexFlag.makeExclusive_shared_witness :
    ∃ c1 : ComplexFlag Nat,
      ComplexFlag.makeExclusive mixedComposite ["a", "b", "d"] [] = some (0, c1, [false]) ∧
      (∀ s ∈ ["a", "b", "d"], c1.getExclusiveFlags.lookup s = some 0) :=
  let ⟨c1, h1, _, h3, _⟩ := ComplexFlag.makeExclusive_shared mixedComposite ["a", "b", "d"] []
    (by
      intro s hs
      simp only [List.mem_cons, List.mem_singleton, List.not_mem_nil, or_false] at hs
      rcases hs with rfl | rfl | rfl <;> exact ⟨_, rfl⟩)
    (fun _ _ => rfl)
  ⟨c1, h1, h3⟩

/-- C18: one `makeExclusive` call over names of child flags, of which `m` are
MANDATORY and `o` are OPTIONAL (with repetition), completes and lowers
`numberMandatoryFlags()` by `max (m - 1) 0` and `numberOptionalFlags()` by
`max (o - 1) 0`; with no name it gives back the composite as it was and a new
state that is false. -/
theorem ComplexFlag.makeExclusive_counts {V : Type} (c : ComplexFlag V) (g : List String)
    (heap : Heap) (hchild : ∀ s ∈ g, ∃ p, c.getFlags.lookup s = some p) :
    ∃ c1 : ComplexFlag V,
      ComplexFlag.makeExclusive c g heap = some (heap.length, c1, heap ++ [false]) ∧
      c1.numberMandatoryFlags =
        c.numberMandatoryFlags - max ((c.countListed Policy.MANDATORY g : Int) - 1) 0 ∧
      c1.numberOptionalFlags =
        c.numberOptionalFlags - max ((c.countListed Policy.OPTIONAL g : Int) - 1) 0 ∧
      ComplexFlag.makeExclusive c [] heap = some (heap.length, c, heap ++ [false]) ∧
      (heap ++ [false])[heap.length]? = some false := by
  obtain ⟨c1, h1⟩ := ComplexFlag.makeExclusive_complete c g heap hchild
  obtain ⟨_, _, _, _, e5, _⟩ := ComplexFlag.makeExclusive_spec c g heap _ h1
  obtain ⟨_, _, _, _, f5, f6, _, _⟩ := ComplexFlag.makeExclusive_frame c g heap _ h1
  have hM := e5 Policy.MANDATORY
  have hO := e5 Policy.OPTIONAL
  simp only [ComplexFlag.rawExclusive] at hM hO f5 f6
  refine ⟨c1, h1, ?_, ?_, ?_, by simp⟩
  · simp only [ComplexFlag.numberMandatoryFlags, f5, hM]
    omega
  · simp only [ComplexFlag.numberOptionalFlags, f6, hO]
    omega
  · simp [ComplexFlag.makeExclusive, ComplexFlag.unpack]

/-- Witness of C18: `makeExclusive("a", "b", "d")` on the mixed example, two
MANDATORY flags and one OPTIONAL flag. -/
theorem ComplexFlag.makeExclusive_counts_witness :
    ∃ c1 : ComplexFlag Nat,
      ComplexFlag.makeExclusive mixedComposite ["a", "b", "d"] [] = some (0, c1, [false]) ∧
      c1.numberMandatoryFlags = mixedComposite.numberMandatoryFlags -
        max ((mixedComposite.countListed Policy.MANDATORY ["a", "b", "d"] : Int) - 1) 0 :=
  let ⟨c1, h1, h2, _⟩ := ComplexFlag.makeExclusive_counts mixedComposite ["a", "b", "d"] []
    (by
      intro s hs
      simp only [List.mem_cons, List.mem_singleton, List.not_mem_nil, or_false] at hs
      rcases hs with rfl | rfl | rfl <;> exact ⟨_, rfl⟩)
  ⟨c1, h1, h2⟩

/-- C19: when the child flag `n` already has the shared state `s` and a later
`makeExclusive` call over child flags lists `n`, the call completes and
`getExclusiveFlags()` still maps `n` to `s`, not to the new state; the keys of
the exclusivity map stay unique, so a name has one state; and the flag counters
are lowered by `max (m - 1) 0` and `max (o - 1) 0` where `m` and `o` count `n`
among the listed flags. -/
theorem ComplexFlag.makeExclusive_first_wins {V : Type} (c : ComplexFlag V) (g : List String)
    (heap : Heap) (n : String) (s : SharedPtr)
    (hchild : ∀ k ∈ g, ∃ p, c.getFlags.lookup k = some p) (hn : n ∈ g)
    (hs : c.getExclusiveFlags.lookup n = some s) (hvalid : s < heap.length) :
    ∃ (st : SharedPtr) (c1 : ComplexFlag V) (heap1 : Heap),
      ComplexFlag.makeExclusive c g heap = some (st, c1, heap1) ∧
      c1.getExclusiveFlags.lookup n = some s ∧ s ≠ st ∧
      ((c.getExclusiveFlags.map Prod.fst).Nodup → (c1.getExclusiveFlags.map Prod.fst).Nodup) ∧
      (∀ p : FlagPtr V, c.getFlags.lookup n = some p → 0 < c.countListed p.policy g) ∧
      c1.numberMandatoryFlags =
        c.numberMandatoryFlags - max ((c.countListed Policy.MANDATORY g : Int) - 1) 0 ∧
      c1.numberOptionalFlags =
        c.numberOptionalFlags - max ((c.countListed Policy.OPTIONAL g : Int) - 1) 0 := by
  obtain ⟨c1, h1⟩ := ComplexFlag.makeExclusive_complete c g heap hchild
  obtain ⟨_, _, _, e4, e5, e6⟩ := ComplexFlag.makeExclusive_spec c g heap _ h1
  obtain ⟨_, _, _, _, f5, f6, _, _⟩ := ComplexFlag.makeExclusive_frame c g heap _ h1
  have hM := e5 Policy.MANDATORY
  have hO := e5 Policy.OPTIONAL
  simp only [ComplexFlag.rawExclusive] at hM hO f5 f6
  refine ⟨heap.length, c1, heap ++ [false], h1, ?_, Nat.ne_of_lt hvalid, e6, ?_, ?_, ?_⟩
  · have hx : c.exclusiveFlags.lookup n = some s := hs
    have := e4 n
    simp only [hx] at this
    exact this
  · intro p hp
    have hmem : n ∈ g.filter (fun k =>
        match c.getFlags.lookup k with
        | some p1 => decide (p1.policy = p.policy)
        | none => false) := by
      rw [List.mem_filter]
      exact ⟨hn, by simp [hp]⟩
    exact List.length_pos_of_mem hmem
  · simp only [ComplexFlag.numberMandatoryFlags, f5, hM]
    omega
  · simp only [ComplexFlag.numberOptionalFlags, f6, hO]
    omega

/-- Witness of C19: `a` is in the group of `makeExclusive("a", "b")` and is
listed again in `makeExclusive("a", "d")`. -/
theorem ComplexFlag.makeExclusive_first_wins_witness :
    ∃ (st : SharedPtr) (c1 : ComplexFlag Nat) (heap1 : Heap),
      ComplexFlag.makeExclusive groupedComposite ["a", "d"] [false] = some (st, c1, heap1) ∧
      c1.getExclusiveFlags.lookup "a" = some 0 ∧ 0 ≠ st :=
  let ⟨st, c1, heap1, h1, h2, h3, _⟩ := ComplexFlag.makeExclusive_first_wins groupedComposite
    ["a", "d"] [false] "a" 0
    (by
      intro s hs
      simp only [List.mem_cons, List.mem_singleton, List.not_mem_nil, or_false] at hs
      rcases hs with rfl | rfl <;> exact ⟨_, rfl⟩)
    (by decide) rfl (by decide)
  ⟨st, c1, heap1, h1, h2, h3⟩

/-- Lemma: one configuration call that completes keeps every name of the
exclusivity map a key of the flag map. -/
theorem Call.run_exclusive_keys {V : Type} (call : Call V) (c : ComplexFlag V) (heap : Heap)
    (r : ComplexFlag V × Heap) (h : call.run c heap = some r)
    (hinv : ∀ n ∈ c.exclusiveFlags.map Prod.fst, n ∈ c.flags.map Prod.fst) :
    ∀ n ∈ r.1.exclusiveFlags.map Prod.fst, n ∈ r.1.flags.map Prod.fst := by
  have hkeys := (Call.run_keys call c heap r h).2
  cases call with
  | addFlag T flag policy description =>
    simp only [Call.run, Option.some.injEq] at h
    intro n hn
    rw [← h, (ComplexFlag.addFlag_members c T flag policy description).2.2.2.1] at hn
    exact (hkeys n).mpr (Or.inl (hinv n hn))
  | addArg init name policy description convert =>
    simp only [Call.run, Option.some.injEq] at h
    intro n hn
    have hx : (ComplexFlag.addArg c init name policy description convert).1.exclusiveFlags =
        c.exclusiveFlags := by
      simp only [ComplexFlag.addArg]
      split_ifs <;> rfl
    rw [← h, hx] at hn
    exact (hkeys n).mpr (Or.inl (hinv n hn))
  | makeExclusive strings =>
    simp only [Call.run] at h
    cases hm : ComplexFlag.makeExclusive c strings heap with
    | none => simp [hm] at h
    | some r0 =>
      simp only [hm, Option.some.injEq] at h
      subst h
      obtain ⟨_, _, e3, e4, _, _⟩ := ComplexFlag.makeExclusive_spec c strings heap r0 hm
      intro n hn
      refine (hkeys n).mpr (Or.inl ?_)
      obtain ⟨v, hv⟩ := lookup_isSome_of_keys _ n hn
      have h4 := e4 n
      rw [hv] at h4
      cases hc : c.exclusiveFlags.lookup n with
      | some x =>
        apply hinv
        exact List.mem_map.mpr ⟨(n, x), mem_of_lookup _ _ _ hc, rfl⟩
      | none =>
        simp only [hc] at h4
        by_cases hg : n ∈ strings
        · obtain ⟨p, hp⟩ := e3 n hg
          exact List.mem_map.mpr ⟨(n, p), mem_of_lookup _ _ _ hp, rfl⟩
        · simp [hg] at h4

/-- Lemma: a call sequence that completes keeps every name of the exclusivity
map a key of the flag map. -/
theorem runCalls_exclusive_keys {V : Type} (calls : List (Call V)) (c c1 : ComplexFlag V)
    (heap heap1 : Heap) (h : runCalls calls c heap = some (c1, heap1))
    (hinv : ∀ n ∈ c.exclusiveFlags.map Prod.fst, n ∈ c.flags.map Prod.fst) :
    ∀ n ∈ c1.exclusiveFlags.map Prod.fst, n ∈ c1.flags.map Prod.fst := by
  induction calls generalizing c heap with
  | nil =>
    simp only [runCalls, Option.some.injEq, Prod.mk.injEq] at h
    rw [← h.1]
    exact hinv
  | cons call calls ih =>
    simp only [runCalls] at h
    cases hr : call.run c heap with
    | none => simp [hr] at h
    | some r =>
      simp only [hr] at h
      exact ih r.1 r.2 h (Call.run_exclusive_keys call c heap r hr hinv)

/-- Lemma: `addExclusive` is undefined exactly when the `FlagPtr` it
dereferences is null. -/
theorem ComplexFlag.addExclusive_none_iff {V : Type} (c : ComplexFlag V) (flag : String)
    (st : SharedPtr) :
    ComplexFlag.addExclusive c flag st = none ↔ (c.addExclusiveReached flag st).2.2 = none := by
  cases hl : c.flags.lookup flag with
  | none =>
    simp [(ComplexFlag.addExclusive_spec c flag st).1 hl, ComplexFlag.addExclusiveReached,
      flagsSubscript, hl]
  | some p =>
    obtain ⟨c1, h1, _⟩ := (ComplexFlag.addExclusive_spec c flag st).2 p hl
    simp [h1, ComplexFlag.addExclusiveReached, flagsSubscript, hl]

/-- Counterexample to C13 as stated: `makeExclusive("nosuch")` on a fresh
composite has undefined behaviour, and when `addExclusive` reaches the
dereference of the null `flags["nosuch"]`, the name has been inserted in the
exclusivity map and, by `operator[]`, added to the child flag map with a null
flag. -/
theorem ComplexFlag.makeExclusive_missing_counterexample :
    (ComplexFlag.makeExclusive (ComplexFlag.new Policy.MANDATORY "" : ComplexFlag Nat)
      ["nosuch"] []).isNone = true ∧
    ((ComplexFlag.new Policy.MANDATORY "" : ComplexFlag Nat).addExclusiveReached "nosuch" 0).1 =
      [("nosuch", 0)] ∧
    ((ComplexFlag.new Policy.MANDATORY "" : ComplexFlag Nat).addExclusiveReached
      "nosuch" 0).2.1.map (fun e => (e.1, e.2.isSome)) = [("nosuch", false)] ∧
    ((ComplexFlag.new Policy.MANDATORY "" : ComplexFlag Nat).addExclusiveReached
      "nosuch" 0).2.2.isNone = true :=
  ⟨rfl, rfl, rfl, rfl⟩

/-- C13 (amended): in every composite reached from a fresh one by
configuration calls that complete, every name of `getExclusiveFlags()` is a key
of `getFlags()` bound to a flag, and every key of `getFlags()` is a name given
to an `add<FlagType>` call; a `makeExclusive` call completes only when every
listed name is a child flag (with another name the null `flags[flag]` is
dereferenced, which is undefined), and a call that completes leaves
`getFlags()` as it was. -/
theorem ComplexFlag.exclusive_members_are_flags {V : Type} (calls : List (Call V))
    (policy : Policy) (description : String) (heap heap1 : Heap) (c1 : ComplexFlag V)
    (h : runCalls calls (ComplexFlag.new policy description) heap = some (c1, heap1)) :
    (∀ n ∈ c1.getExclusiveFlags.map Prod.fst, ∃ p : FlagPtr V, c1.getFlags.lookup n = some p) ∧
    (∀ n ∈ c1.getFlags.map Prod.fst, n ∈ declaredFlagNames calls) ∧
    (∀ (c : ComplexFlag V) (strings : List String) (hp : Heap) (s : String), s ∈ strings →
      c.getFlags.lookup s = none → ComplexFlag.makeExclusive c strings hp = none) ∧
    (∀ (c : ComplexFlag V) (strings : List String) (hp : Heap)
      (r : SharedPtr × ComplexFlag V × Heap), ComplexFlag.makeExclusive c strings hp = some r →
      r.2.1.getFlags = c.getFlags) := by
  refine ⟨?_, ?_, ?_, ?_⟩
  · intro n hn
    have hinv := runCalls_exclusive_keys calls _ c1 heap heap1 h (by simp [ComplexFlag.new])
    exact lookup_isSome_of_keys _ n (hinv n hn)
  · intro n hn
    have := ((runCalls_flags calls _ c1 heap heap1 h).2.2 n).mp hn
    simpa [ComplexFlag.new] using this
  · intro c strings hp s hs hl
    exact ComplexFlag.makeExclusive_undefined c strings hp s hs hl
  · intro c strings hp r hr
    exact (ComplexFlag.makeExclusive_frame c strings hp r hr).2.1

/-- Witness of C13 (amended): the example call sequence on a fresh composite. -/
theorem ComplexFlag.exclusive_members_are_flags_witness :
    ∃ p : FlagPtr Nat, exampleComposite.getFlags.lookup "slow" = some p :=
  (ComplexFlag.exclusive_members_are_flags exampleCalls Policy.MANDATORY "" [] [false]
    exampleComposite rfl).1 "slow" (by decide)

/-! ## The grammar root -/

/-- C14: a freshly constructed `ArgParser` is a composite with policy
MANDATORY and the empty description (a composite has no name member and the
root is stored under no key), `parsed()` false, no child flags, no value-args,
no exclusivity entries and `getNumberArgsSuccessfullyParsed() = 0`. -/
theorem ArgParser.new_state {V : Type} :
    (ArgParser.new : ArgParser V).toComplexFlag = ComplexFlag.new Policy.MANDATORY "" ∧
    (ArgParser.new : ArgParser V).toComplexFlag.policy = Policy.MANDATORY ∧
    (ArgParser.new : ArgParser V).toComplexFlag.description = "" ∧
    (ArgParser.new : ArgParser V).toComplexFlag.parsed = false ∧
    (ArgParser.new : ArgParser V).toComplexFlag.getFlags = [] ∧
    (ArgParser.new : ArgParser V).toComplexFlag.getFlagInsertionOrder = [] ∧
    (ArgParser.new : ArgParser V).toComplexFlag.getArgs = [] ∧
    (ArgParser.new : ArgParser V).toComplexFlag.getExclusiveFlags = [] ∧
    (ArgParser.new : ArgParser V).toComplexFlag.numberMandatoryArgs = 0 ∧
    (ArgParser.new : ArgParser V).toComplexFlag.numberOptionalArgs = 0 ∧
    (ArgParser.new : ArgParser V).getNumberArgsSuccessfullyParsed = 0 :=
  ⟨rfl, rfl, rfl, rfl, rfl, rfl, rfl, rfl, rfl, rfl, rfl⟩

/-! ## The matching pass -/

/-- C16: in the grammar of a root with the MANDATORY composite `--speed` and
its MANDATORY group `slow`, `medium`, `fast`, with any recursion bound of at
least two: `--speed m` succeeds for every member `m`, with `m` parsed and the
other members not; `--speed m1 --speed m2` with two different members fails
with the exclusivity violation of `m2` against `m1`; `--speed` alone fails
with the missing mandatory group. -/
theorem speedRun_outcomes (fuel : Nat) :
    (∀ m ∈ ["slow", "medium", "fast"],
      speedRun (fuel + 2) ["--speed", m] =
        MatchOutcome.success (["slow", "medium", "fast"].map (fun n => (n, n == m))) 2 [true]) ∧
    (∀ m1 ∈ ["slow", "medium", "fast"], ∀ m2 ∈ ["slow", "medium", "fast"], m1 ≠ m2 →
      speedRun (fuel + 2) ["--speed", m1, "--speed", m2] =
        MatchOutcome.failure (MatchFailure.ExclusivityViolation m2 m1 0)) ∧
    speedRun (fuel + 2) ["--speed"] =
      MatchOutcome.failure (MatchFailure.MissingMandatoryGroup 0 ["slow", "medium", "fast"]) := by
  refine ⟨?_, ?_, rfl⟩
  · intro m hm
    simp only [List.mem_cons, List.mem_singleton, List.not_mem_nil, or_false] at hm
    rcases hm with rfl | rfl | rfl <;> rfl
  · intro m1 hm1 m2 hm2 hne
    simp only [List.mem_cons, List.mem_singleton, List.not_mem_nil, or_false] at hm1 hm2
    rcases hm1 with rfl | rfl | rfl <;> rcases hm2 with rfl | rfl | rfl <;>
      first
        | exact absurd rfl hne
        | rfl

/-- Lemma: the members of a group are the names bound to its state. -/
theorem ComplexFlag.mem_groupMembers {V : Type} (c : ComplexFlag V) (st : SharedPtr)
    (n : String) : n ∈ c.groupMembers st ↔ (n, st) ∈ c.exclusiveFlags := by
  simp only [ComplexFlag.groupMembers, ComplexFlag.getExclusiveFlags, List.mem_map,
    List.mem_filter, beq_iff_eq]
  constructor
  · rintro ⟨e, ⟨he, hst⟩, hn⟩
    obtain ⟨k, v⟩ := e
    simp only at hst hn
    rw [← hn, ← hst]
    exact he
  · intro h
    exact ⟨(n, st), ⟨h, rfl⟩, rfl⟩

/-- Lemma: replacing the flag under a key changes what lookup finds under
that key only. -/
theorem lookup_mapReplace {β : Type} (m : List (String × β)) (k k1 : String) (v : β) :
    (mapReplace m k v).lookup k1 =
      if k1 = k then (m.lookup k).map (fun _ => v) else m.lookup k1 := by
  induction m with
  | nil => simp [mapReplace]
  | cons e es ih =>
    obtain ⟨k2, v2⟩ := e
    simp only [mapReplace, List.map_cons] at ih ⊢
    by_cases h2 : k2 = k
    · subst h2
      by_cases h1 : k1 = k2
      · subst h1
        simp
      · have hne : (k1 == k2) = false := by simpa using h1
        simp only [beq_self_eq_true, if_true, List.lookup_cons, hne, h1, if_false]
        rw [ih]
        simp [h1]
    · have hne : (k2 == k) = false := by simpa using h2
      have hne3 : (k == k2) = false := by simpa using fun h => h2 h.symm
      by_cases h1 : k1 = k2
      · subst h1
        simp [hne, h2]
      · have hne1 : (k1 == k2) = false := by simpa using h1
        simp only [hne, Bool.false_eq_true, if_false, List.lookup_cons, hne1, hne3]
        rw [ih]

/-- Lemma: `Heap.le` is reflexive. -/
theorem Heap.le_refl (h : Heap) : Heap.le h h := ⟨rfl, fun _ hi => hi⟩

/-- Lemma: `Heap.le` is transitive. -/
theorem Heap.le_trans {h h1 h2 : Heap} (a : Heap.le h h1) (b : Heap.le h1 h2) : Heap.le h h2 :=
  ⟨b.1.trans a.1, fun i hi => b.2 i (a.2 i hi)⟩

/-- Lemma: setting a state keeps the cells and the states that are set. -/
theorem Heap.le_set (h : Heap) (st : SharedPtr) : Heap.le h (h.set st true) := by
  refine ⟨List.length_set _ _ _, fun i hi => ?_⟩
  by_cases hst : st = i
  · subst hst
    obtain ⟨hlt, _⟩ := List.getElem?_eq_some_iff.mp hi
    rw [List.getElem?_set_self hlt]
  · rw [List.getElem?_set_ne hst]
    exact hi

/-- Lemma: the virtual `parse` of a stored child never allocates or resets a
shared state when the composite's `parse` does not. -/
theorem FlagPtr.parseWith_heap {V : Type}
    (pc : ComplexFlag V → List String → Nat → Nat → Heap → MatchOutcome (ComplexFlag V))
    (hpc : HeapMonotone pc) (p p1 : FlagPtr V) (argv : List String) (first last first1 : Nat)
    (heap heap1 : Heap)
    (h : p.parseWith pc argv first last heap = MatchOutcome.success p1 first1 heap1) :
    Heap.le heap heap1 := by
  cases p with
  | flag f =>
    simp only [FlagPtr.parseWith, Flag.parse, MatchOutcome.success.injEq] at h
    rw [← h.2.2]
    exact Heap.le_refl heap
  | complexFlag cc =>
    simp only [FlagPtr.parseWith] at h
    cases hr : pc cc argv first last heap with
    | success c1 f1 h1 =>
      simp only [hr, MatchOutcome.success.injEq] at h
      rw [← h.2.2]
      exact hpc cc argv first last heap c1 f1 h1 hr
    | failure e => simp [hr] at h
    | undefined => simp [hr] at h
    | outOfFuel => simp [hr] at h

/-- Lemma: what a successful `tryParseFlag` did. -/
theorem ComplexFlag.tryParseFlag_success {V : Type}
    (pc : ComplexFlag V → List String → Nat → Nat → Heap → MatchOutcome (ComplexFlag V))
    (c c1 : ComplexFlag V) (argv : List String) (first last first1 : Nat) (heap heap1 : Heap)
    (h : c.tryParseFlag pc argv first last heap = some (MatchOutcome.success c1 first1 heap1)) :
    ∃ (token : String) (child child1 : FlagPtr V) (heap0 : Heap),
      argv[first]? = some token ∧ c.flags.lookup token = some child ∧
      c.conflictingMember heap token = none ∧
      child.parseWith pc argv (first + 1) last heap = MatchOutcome.success child1 first1 heap0 ∧
      c1.flags = mapReplace c.flags token child1 ∧
      c1.exclusiveFlags = c.exclusiveFlags ∧
      heap1 = (match c.exclusiveFlags.lookup token with
        | some st => heap0.set st true
        | none => heap0) := by
  unfold ComplexFlag.tryParseFlag at h
  cases ht : argv[first]? with
  | none => simp [ht] at h
  | some token =>
    simp only [ht, ComplexFlag.getFlags] at h
    cases hl : c.flags.lookup token with
    | none => simp [hl] at h
    | some child =>
      simp only [hl] at h
      cases hc : c.conflictingMember heap token with
      | some x => simp [hc] at h
      | none =>
        simp only [hc] at h
        cases hp : child.parseWith pc argv (first + 1) last heap with
        | success child1 f1 heap0 =>
          simp only [hp, Option.some.injEq, MatchOutcome.success.injEq,
            ComplexFlag.getExclusiveFlags] at h
          obtain ⟨h1, h2, h3⟩ := h
          subst h2
          refine ⟨token, child, child1, heap0, rfl, hl, hc, hp, ?_, ?_, h3.symm⟩
          · rw [← h1]
          · rw [← h1]
        | failure e => simp [hp] at h
        | undefined => simp [hp] at h
        | outOfFuel => simp [hp] at h

/-- Lemma: a successful `tryParseArg` touches only the value-args. -/
theorem ComplexFlag.tryParseArg_success {V : Type} (c c1 : ComplexFlag V) (nextArg : Nat)
    (argv : List String) (first last first1 : Nat) (heap heap1 : Heap)
    (h : c.tryParseArg nextArg argv first last heap =
      some (MatchOutcome.success c1 first1 heap1)) :
    c1.flags = c.flags ∧ c1.exclusiveFlags = c.exclusiveFlags ∧ heap1 = heap := by
  unfold ComplexFlag.tryParseArg at h
  cases ha : c.getArgs[nextArg]? with
  | none => simp [ha] at h
  | some arg =>
    simp only [ha] at h
    cases hp : arg.parse argv first last with
    | returned arg1 f1 =>
      simp only [hp, Option.some.injEq, MatchOutcome.success.injEq] at h
      obtain ⟨h1, _, h3⟩ := h
      rw [← h1]
      exact ⟨rfl, rfl, h3.symm⟩
    | threw e a f => simp [hp] at h
    | undefined => simp [hp] at h

/-- Lemma: when no member conflicts with a token whose group state is set, no
other member of the token's group is parsed. -/
theorem ComplexFlag.conflictingMember_none {V : Type} (c : ComplexFlag V) (heap : Heap)
    (token : String) (st : SharedPtr) (h : c.conflictingMember heap token = none)
    (hl : c.exclusiveFlags.lookup token = some st) (hset : heap[st]? = some true) :
    ∀ n ∈ c.groupMembers st, n ≠ token → c.memberParsed n = false := by
  unfold ComplexFlag.conflictingMember at h
  simp only [ComplexFlag.getExclusiveFlags, hl, hset, if_true] at h
  cases hf : (c.groupMembers st).find? (fun n => n != token && c.memberParsed n) with
  | some other => simp [hf] at h
  | none =>
    intro n hn hne
    have := List.find?_eq_none.mp hf n hn
    simpa [hne] using this

/-- Lemma: replacing the flag under a token keeps `parsed()` of every other
child. -/
theorem ComplexFlag.memberParsed_replace {V : Type} (c c1 : ComplexFlag V) (token n : String)
    (child1 : FlagPtr V) (hf : c1.flags = mapReplace c.flags token child1) (hne : n ≠ token) :
    c1.memberParsed n = c.memberParsed n := by
  simp only [ComplexFlag.memberParsed, ComplexFlag.getFlags, hf, lookup_mapReplace, hne,
    if_false]

/-- Lemma: the members of a group depend on the exclusivity map only. -/
theorem ComplexFlag.groupMembers_congr {V : Type} (c c1 : ComplexFlag V) (st : SharedPtr)
    (hx : c1.exclusiveFlags = c.exclusiveFlags) : c1.groupMembers st = c.groupMembers st := by
  simp only [ComplexFlag.groupMembers, ComplexFlag.getExclusiveFlags, hx]

/-- Lemma: a successful `tryParseFlag` never allocates or resets a shared
state, leaves the exclusivity map alone and keeps the exclusivity state of the
composite. -/
theorem ComplexFlag.tryParseFlag_step {V : Type}
    (pc : ComplexFlag V → List String → Nat → Nat → Heap → MatchOutcome (ComplexFlag V))
    (hpc : HeapMonotone pc) (c c1 : ComplexFlag V) (argv : List String)
    (first last first1 : Nat) (heap heap1 : Heap)
    (h : c.tryParseFlag pc argv first last heap = some (MatchOutcome.success c1 first1 heap1)) :
    Heap.le heap heap1 ∧ c1.exclusiveFlags = c.exclusiveFlags ∧
    (c.exclusiveInv heap → c1.exclusiveInv heap1) := by
  obtain ⟨token, child, child1, heap0, _, _, hconf, hparse, hf, hx, hheap⟩ :=
    ComplexFlag.tryParseFlag_success pc c c1 argv first last first1 heap heap1 h
  have hle0 : Heap.le heap heap0 :=
    FlagPtr.parseWith_heap pc hpc child child1 argv (first + 1) last first1 heap heap0 hparse
  have hle1 : Heap.le heap0 heap1 := by
    rw [hheap]
    cases c.exclusiveFlags.lookup token with
    | none => exact Heap.le_refl heap0
    | some st => exact Heap.le_set heap0 st
  have hle : Heap.le heap heap1 := Heap.le_trans hle0 hle1
  refine ⟨hle, hx, ?_⟩
  rintro ⟨i4, i3, i1, i2⟩
  have hgm : ∀ st, c1.groupMembers st = c.groupMembers st :=
    fun st => ComplexFlag.groupMembers_congr c c1 st hx
  have hlook : ∀ st, token ∈ c.groupMembers st → c.exclusiveFlags.lookup token = some st :=
    fun st hm => lookup_of_mem_nodup _ _ _ i4 ((ComplexFlag.mem_groupMembers c st token).mp hm)
  have hclash : ∀ (st : SharedPtr) (n : String), token ∈ c.groupMembers st →
      n ∈ c.groupMembers st → n ≠ token → c.memberParsed n = true → False := by
    intro st n hmt hmn hne hp
    have hfalse := ComplexFlag.conflictingMember_none c heap token st hconf (hlook st hmt)
      (i2 st n hmn hp) n hmn hne
    rw [hp] at hfalse
    exact absurd hfalse (by simp)
  refine ⟨?_, ?_, ?_, ?_⟩
  · show (c1.exclusiveFlags.map Prod.fst).Nodup
    rw [hx]
    exact i4
  · intro e he
    have he1 : e ∈ c.exclusiveFlags := hx ▸ he
    rw [hle.1]
    exact i3 e he1
  · intro st n1 n2 h1 h2 p1 p2
    rw [hgm st] at h1 h2
    by_cases e1 : n1 = token
    · by_cases e2 : n2 = token
      · rw [e1, e2]
      · rw [ComplexFlag.memberParsed_replace c c1 token n2 child1 hf e2] at p2
        exact (hclash st n2 (e1 ▸ h1) h2 e2 p2).elim
    · rw [ComplexFlag.memberParsed_replace c c1 token n1 child1 hf e1] at p1
      by_cases e2 : n2 = token
      · exact (hclash st n1 (e2 ▸ h2) h1 e1 p1).elim
      · rw [ComplexFlag.memberParsed_replace c c1 token n2 child1 hf e2] at p2
        exact i1 st n1 n2 h1 h2 p1 p2
  · intro st n hm hp
    rw [hgm st] at hm
    by_cases e1 : n = token
    · have hl := hlook st (e1 ▸ hm)
      have hlt : st < heap0.length := by
        rw [hle0.1]
        exact i3 (token, st) ((ComplexFlag.mem_groupMembers c st token).mp (e1 ▸ hm))
      rw [hheap, hl]
      exact List.getElem?_set_self hlt
    · rw [ComplexFlag.memberParsed_replace c c1 token n child1 hf e1] at hp
      exact hle.2 st (i2 st n hm hp)

/-- Lemma: a successful matching loop never allocates or resets a shared
state, leaves the exclusivity map alone and keeps the exclusivity state of the
composite. -/
theorem ComplexFlag.matchLoop_step {V : Type}
    (pc : ComplexFlag V → List String → Nat → Nat → Heap → MatchOutcome (ComplexFlag V))
    (hpc : HeapMonotone pc) (argv : List String) (last : Nat) (steps : Nat)
    (c c1 : ComplexFlag V) (nextArg first first1 : Nat) (heap heap1 : Heap)
    (h : ComplexFlag.matchLoop pc argv last steps c nextArg first heap =
      MatchOutcome.success c1 first1 heap1) :
    Heap.le heap heap1 ∧ c1.exclusiveFlags = c.exclusiveFlags ∧
    (c.exclusiveInv heap → c1.exclusiveInv heap1) := by
  induction steps generalizing c nextArg first heap with
  | zero => simp [ComplexFlag.matchLoop] at h
  | succ steps ih =>
    simp only [ComplexFlag.matchLoop] at h
    by_cases hend : first = last
    · simp only [hend, if_true, MatchOutcome.success.injEq] at h
      obtain ⟨h1, _, h3⟩ := h
      rw [← h1, ← h3]
      exact ⟨Heap.le_refl heap, rfl, id⟩
    · simp only [hend, if_false] at h
      cases hflag : c.tryParseFlag pc argv first last heap with
      | some r =>
        cases r with
        | success c0 f0 heap0 =>
          simp only [hflag] at h
          obtain ⟨a1, a2, a3⟩ :=
            ComplexFlag.tryParseFlag_step pc hpc c c0 argv first last f0 heap heap0 hflag
          obtain ⟨b1, b2, b3⟩ := ih c0 nextArg f0 heap0 h
          exact ⟨Heap.le_trans a1 b1, b2.trans a2, fun hi => b3 (a3 hi)⟩
        | failure e => simp [hflag] at h
        | undefined => simp [hflag] at h
        | outOfFuel => simp [hflag] at h
      | none =>
        simp only [hflag] at h
        cases harg : c.tryParseArg nextArg argv first last heap with
        | some r =>
          cases r with
          | success c0 f0 heap0 =>
            simp only [harg] at h
            obtain ⟨a1, a2, a3⟩ :=
              ComplexFlag.tryParseArg_success c c0 nextArg argv first last f0 heap heap0 harg
            obtain ⟨b1, b2, b3⟩ := ih c0 (nextArg + 1) f0 heap0 h
            subst a3
            refine ⟨b1, b2.trans a2, fun hi => b3 ?_⟩
            obtain ⟨i4, i3, i1, i2⟩ := hi
            have hgm : ∀ st, c0.groupMembers st = c.groupMembers st :=
              fun st => ComplexFlag.groupMembers_congr c c0 st a2
            have hmp : ∀ n, c0.memberParsed n = c.memberParsed n := by
              intro n
              simp only [ComplexFlag.memberParsed, ComplexFlag.getFlags, a1]
            refine ⟨?_, ?_, ?_, ?_⟩
            · show (c0.exclusiveFlags.map Prod.fst).Nodup
              rw [a2]
              exact i4
            · intro e he
              have he1 : e ∈ c.exclusiveFlags := a2 ▸ he
              exact i3 e he1
            · intro st n1 n2 h1 h2 p1 p2
              rw [hgm st] at h1 h2
              rw [hmp] at p1 p2
              exact i1 st n1 n2 h1 h2 p1 p2
            · intro st n hm hp
              rw [hgm st] at hm
              rw [hmp] at hp
              exact i2 st n hm hp
          | failure e => simp [harg] at h
          | undefined => simp [harg] at h
          | outOfFuel => simp [harg] at h
        | none =>
          simp only [harg, MatchOutcome.success.injEq] at h
          obtain ⟨h1, _, h3⟩ := h
          rw [← h1, ← h3]
          exact ⟨Heap.le_refl heap, rfl, id⟩

/-- Lemma: what a successful `parse` of a composite did. -/
theorem ComplexFlag.parse_success {V : Type} (fuel : Nat) (c c1 : ComplexFlag V)
    (argv : List String) (first last first1 : Nat) (heap heap1 : Heap)
    (h : ComplexFlag.parse fuel c argv first last heap = MatchOutcome.success c1 first1 heap1) :
    ∃ (fuel0 : Nat) (c0 : ComplexFlag V), fuel = fuel0 + 1 ∧
      ComplexFlag.matchLoop (ComplexFlag.parse fuel0) argv last
        ((last - first) + c.getArgs.length + 1) c 0 first heap =
          MatchOutcome.success c0 first1 heap1 ∧
      c0.validate = none ∧ c1.flags = c0.flags ∧ c1.exclusiveFlags = c0.exclusiveFlags ∧
      c1.parsed = true := by
  cases fuel with
  | zero => simp [ComplexFlag.parse] at h
  | succ fuel0 =>
    simp only [ComplexFlag.parse] at h
    cases hm : ComplexFlag.matchLoop (ComplexFlag.parse fuel0) argv last
        ((last - first) + c.getArgs.length + 1) c 0 first heap with
    | success c0 f0 heap0 =>
      simp only [hm] at h
      cases hv : c0.validate with
      | some e => simp [hv] at h
      | none =>
        simp only [hv, MatchOutcome.success.injEq] at h
        obtain ⟨h1, h2, h3⟩ := h
        subst h2 h3
        rw [← h1]
        exact ⟨fuel0, c0, rfl, hm, hv, rfl, rfl, rfl⟩
    | failure e => simp [hm] at h
    | undefined => simp [hm] at h
    | outOfFuel => simp [hm] at h

/-- Lemma: the `parse` of a composite never allocates or resets a shared state. -/
theorem ComplexFlag.parse_heap {V : Type} (fuel : Nat) :
    HeapMonotone (ComplexFlag.parse fuel : ComplexFlag V → _) := by
  induction fuel with
  | zero =>
    intro cc argv first last heap cc1 first1 heap1 h
    simp [ComplexFlag.parse] at h
  | succ fuel ih =>
    intro cc argv first last heap cc1 first1 heap1 h
    obtain ⟨fuel0, c0, hfuel, hm, _, _, _, _⟩ :=
      ComplexFlag.parse_success (fuel + 1) cc cc1 argv first last first1 heap heap1 h
    have hf : fuel0 = fuel := by omega
    subst hf
    exact (ComplexFlag.matchLoop_step _ ih argv last _ cc c0 0 first first1 heap heap1 hm).1

/-- Lemma: after a validation without failure, every group with a MANDATORY
member has a parsed member. -/
theorem ComplexFlag.validate_groups {V : Type} (c : ComplexFlag V) (h : c.validate = none)
    (st : SharedPtr) (n : String) (hn : n ∈ c.groupMembers st)
    (hm : c.hasMember Policy.MANDATORY (c.groupMembers st) = true) :
    ∃ n1 ∈ c.groupMembers st, c.memberParsed n1 = true := by
  unfold ComplexFlag.validate at h
  cases h1 : c.getFlags.find? (fun e =>
      decide (e.2.policy = Policy.MANDATORY) && !e.2.parsed && !c.isExclusive e.1) with
  | some e => simp [h1] at h
  | none =>
    simp only [h1] at h
    cases h2 : c.getExclusiveFlags.find? (fun e =>
        c.hasMember Policy.MANDATORY (c.groupMembers e.2) &&
          !(c.groupMembers e.2).any (fun n => c.memberParsed n)) with
    | some e => simp [h2] at h
    | none =>
      have hmem : (n, st) ∈ c.getExclusiveFlags := (ComplexFlag.mem_groupMembers c st n).mp hn
      have := List.find?_eq_none.mp h2 (n, st) hmem
      simp only [hm, Bool.true_and, Bool.not_eq_true, Bool.not_eq_false_eq_eq_true,
        List.any_eq_true, Bool.not_not] at this
      exact this

/-- C15: when `parse` (the matching pass and then the validation) of a
configured composite whose group members are not yet parsed succeeds, the
exclusivity map is as before and, for every shared state, at most one member of
its group has `parsed()` true, and exactly one member has when the group holds
a MANDATORY flag. -/
theorem ComplexFlag.parse_exclusive {V : Type} (fuel : Nat) (c c1 : ComplexFlag V)
    (argv : List String) (first last first1 : Nat) (heap heap1 : Heap)
    (hconf : c.unparsedConfigured heap)
    (h : ComplexFlag.parse fuel c argv first last heap = MatchOutcome.success c1 first1 heap1) :
    c1.getExclusiveFlags = c.getExclusiveFlags ∧ c1.parsed = true ∧
    ∀ st : SharedPtr,
      (∀ n1 ∈ c1.groupMembers st, ∀ n2 ∈ c1.groupMembers st,
        c1.memberParsed n1 = true → c1.memberParsed n2 = true → n1 = n2) ∧
      (c1.hasMember Policy.MANDATORY (c1.groupMembers st) = true →
        ∃ n ∈ c1.groupMembers st, c1.memberParsed n = true ∧
          ∀ n2 ∈ c1.groupMembers st, c1.memberParsed n2 = true → n2 = n) := by
  obtain ⟨fuel0, c0, _, hm, hv, hf, hx, hp⟩ :=
    ComplexFlag.parse_success fuel c c1 argv first last first1 heap heap1 h
  obtain ⟨_, hx0, hinv⟩ := ComplexFlag.matchLoop_step _ (ComplexFlag.parse_heap fuel0) argv last _
    c c0 0 first first1 heap heap1 hm
  obtain ⟨k1, k2, k3⟩ := hconf
  have hinit : c.exclusiveInv heap := by
    refine ⟨k1, k2, ?_, ?_⟩
    · intro st n1 n2 h1 _ p1 _
      have := k3 (n1, st) ((ComplexFlag.mem_groupMembers c st n1).mp h1)
      rw [p1] at this
      exact absurd this (by simp)
    · intro st n h1 p1
      have := k3 (n, st) ((ComplexFlag.mem_groupMembers c st n).mp h1)
      rw [p1] at this
      exact absurd this (by simp)
  obtain ⟨_, _, i1, _⟩ := hinv hinit
  have hgm : ∀ st, c1.groupMembers st = c0.groupMembers st :=
    fun st => ComplexFlag.groupMembers_congr c0 c1 st hx
  have hmp : ∀ n, c1.memberParsed n = c0.memberParsed n := by
    intro n
    simp only [ComplexFlag.memberParsed, ComplexFlag.getFlags, hf]
  have hhm : ∀ st, c1.hasMember Policy.MANDATORY (c1.groupMembers st) =
      c0.hasMember Policy.MANDATORY (c0.groupMembers st) := by
    intro st
    rw [hgm st]
    exact ComplexFlag.hasMember_congr c0 c1 Policy.MANDATORY _ hf
  have hone : ∀ st, ∀ n1 ∈ c1.groupMembers st, ∀ n2 ∈ c1.groupMembers st,
      c1.memberParsed n1 = true → c1.memberParsed n2 = true → n1 = n2 := by
    intro st n1 h1 n2 h2 p1 p2
    rw [hgm st] at h1 h2
    rw [hmp] at p1 p2
    exact i1 st n1 n2 h1 h2 p1 p2
  refine ⟨?_, hp, fun st => ⟨hone st, fun hmand => ?_⟩⟩
  · show c1.exclusiveFlags = c.exclusiveFlags
    rw [hx, hx0]
  · rw [hhm st] at hmand
    have hne : ∃ n, n ∈ c0.groupMembers st := by
      simp only [ComplexFlag.hasMember, List.any_eq_true] at hmand
      obtain ⟨n, hn, _⟩ := hmand
      exact ⟨n, hn⟩
    obtain ⟨n, hn⟩ := hne
    obtain ⟨n1, hn1, hp1⟩ := ComplexFlag.validate_groups c0 hv st n hn hmand
    refine ⟨n1, (hgm st) ▸ hn1, (hmp n1) ▸ hp1, fun n2 h2 p2 => ?_⟩
    exact hone st n2 h2 n1 ((hgm st) ▸ hn1) p2 ((hmp n1) ▸ hp1)

/-- Witness of C15: the `--speed` composite parsed on the token `fast`. -/
theorem ComplexFlag.parse_exclusive_witness :
    ∃ n ∈ speedParsed.groupMembers 0, speedParsed.memberParsed n = true ∧
      ∀ n2 ∈ speedParsed.groupMembers 0, speedParsed.memberParsed n2 = true → n2 = n :=
  ((ComplexFlag.parse_exclusive 1 speedFlag speedParsed ["fast"] 0 1 1 [false] [true]
    ⟨by decide, by decide, by decide⟩ rfl).2.2 0).2 (by decide)

end AutoArgParse
